import Mathlib

/-!
Formal model of the volume-allocation engine of the Fludo liquid-mixer GUI
(src/mixer.py together with src/common.py).

The engine state is the `Mixer` object: its container volume
(`_container_vol`), its mixture name, its mixer-level `fill_set` flag and the
ordered list `_ingredient_list` of `MixerIngredientController` rows.  Each row
carries a requested volume (the tk `ml` variable, mirrored into the external
liquid object by `update_ml`), the scale upper bound (`ml_scale['to']`), the
displayed max label (`ml_max`, holding a number, the sentinel string Full, or
the empty string), the per-row `fill_set` flag and — significant for the
semantics — whether the fill trace callback is currently installed on the
`ml_max` variable (`_fill_traceid`), since the flag and the trace are set at
different moments inside `_set_fill` / `_unset_fill`.

Numbers are modelled as rationals: the source manipulates one-decimal
quantities through `int(x * 10) / 10`, which is exact on rationals; Python
float rounding noise is outside the scope of this model.

Tk variable-trace semantics used by the translation: every write to a tk
variable runs its trace callbacks synchronously, whether or not the value
changed.  In `Mixer.update`, every row receives at least one `ml_max.set`
(lines 596-599 run unconditionally), so a row whose fill trace is installed
has its `ml` re-derived to `int((container - sum(others)) * 10) / 10`
each time `update` processes it.
-/

namespace Fludo

/-- Python `int(...)` truncation toward zero, on a rational. -/
def pytrunc (q : ℚ) : ℤ :=
  if 0 ≤ q then ⌊q⌋ else -⌊-q⌋

/-- The one-decimal truncation `int(x * 10) / 10` used throughout mixer.py. -/
def trunc1 (q : ℚ) : ℚ :=
  (pytrunc (q * 10) : ℚ) / 10

/-- Value of a row's `ml_max` display variable: a number, the sentinel
string Full, or the empty string used for the filler row. -/
inductive Label where
  | num (q : ℚ)
  | full
  | empty
deriving DecidableEq, Repr

/-- One `MixerIngredientController` row.  `eid` is the object identity
(creation order), `ml` the tk volume variable, `liquidMl` the external
`fludo.Liquid.ml` field written by `update_ml`, `scaleTo` the scale upper
bound, `mlMax` the displayed max label, `fill_set` the row flag, and
`traceOn` whether the fill trace is installed on `ml_max`. -/
structure Entry where
  eid : ℕ
  ml : ℚ
  liquidMl : ℚ
  scaleTo : ℚ
  mlMax : Label
  fill_set : Bool
  traceOn : Bool
deriving DecidableEq, Repr

/-- The engine state of a `Mixer` object. -/
structure State where
  container_vol : ℚ
  entries : List Entry
  fill_set : Bool
  name : String
  nextId : ℕ
deriving DecidableEq, Repr

/-- Sum of the `ml` variables of a list of rows. -/
def mlSum (es : List Entry) : ℚ :=
  (es.map Entry.ml).sum

/-- Sum of the `ml` variables of the rows whose fill flag is clear
(mixer.py line 580). -/
def nonFillerSum (es : List Entry) : ℚ :=
  ((es.filter (fun e => !e.fill_set)).map Entry.ml).sum

/-- The body of the `for ingredient in self._ingredient_list` loop of
`Mixer.update` (mixer.py lines 586-607), processed left to right.  `done`
holds the already-processed rows, the position of the current row is
`done.length`.  For each row: the possible max is computed from the current
`ml` and the free volume; scale bound and max label are set unless the row is
the skipped one; the label then becomes Full when the free volume is below
0.1 and the empty string on the filler row; each `ml_max` write fires the
fill trace when installed, re-deriving `ml` from the container volume minus
the sum of all other rows at that moment; finally `update_ml` copies `ml`
into the liquid object. -/
def updGo (cap free : ℚ) (skip : Option ℕ) (done : List Entry) :
    List Entry → List Entry
  | [] => done
  | e :: todo =>
    let k := done.length
    let imax := trunc1 (e.ml + free)
    let to2 := if skip = some k then e.scaleTo else imax
    let lab := if e.fill_set then Label.empty
               else if free < 1/10 then Label.full
               else Label.num to2
    let others := mlSum done + mlSum todo
    let ml2 := if e.traceOn then trunc1 (cap - others) else e.ml
    let e2 : Entry :=
      { e with scaleTo := to2, mlMax := lab, ml := ml2, liquidMl := ml2 }
    updGo cap free skip (done ++ [e2]) todo

/-- `Mixer.update(skip_limiting_ingredient)` (mixer.py lines 567-625); the
skipped row is identified by its position.  The free volume is computed once,
before the loop, from the rows whose fill flag is clear. -/
def update (skip : Option ℕ) (s : State) : State :=
  let free := s.container_vol - nonFillerSum s.entries
  { s with entries := updGo s.container_vol free skip [] s.entries }

/-- Replace the row at a position, leaving the list unchanged when the
position is out of range. -/
def listModify (f : Entry → Entry) : List Entry → ℕ → List Entry
  | [], _ => []
  | a :: l, 0 => f a :: l
  | a :: l, n + 1 => a :: listModify f l n

/-- Apply a function to the row at position `p`. -/
def modifyEntry (p : ℕ) (f : Entry → Entry) (s : State) : State :=
  { s with entries := listModify f s.entries p }

/-- `MixerIngredientController._unset_fill` (mixer.py lines 732-754): the
fill trace is deleted first, then `Mixer.update(self)` runs while the row's
flag is still set, and only afterwards is the flag cleared. -/
def unset_fill (p : ℕ) (s : State) : State :=
  let s1 := modifyEntry p (fun e => { e with traceOn := false }) s
  let s2 := update (some p) s1
  modifyEntry p (fun e => { e with fill_set := false }) s2

/-- `MixerIngredientController._set_fill` (mixer.py lines 756-781): the ml
trace is deleted and the fill trace installed first, then `Mixer.update(self)`
runs while the row's flag is still clear, and only afterwards is the flag
set. -/
def set_fill (p : ℕ) (s : State) : State :=
  let s1 := modifyEntry p (fun e => { e with traceOn := true }) s
  let s2 := update (some p) s1
  modifyEntry p (fun e => { e with fill_set := true }) s2

/-- The `for row in self._ingredient_list` loop of `Mixer.toggle_fill`
(mixer.py lines 475-484): each row is visited in order; the toggled row is
set or unset according to its current flag (updating the mixer-level flag),
every other row is unset.  The fuel equals the initial list length, which no
iteration changes. -/
def toggleLoop (p : ℕ) : State → ℕ → ℕ → State
  | s, _, 0 => s
  | s, k, fuel + 1 =>
    match s.entries[k]? with
    | none => s
    | some e =>
      let s' :=
        if k = p then
          if e.fill_set then { unset_fill p s with fill_set := false }
          else { set_fill p s with fill_set := true }
        else unset_fill k s
      toggleLoop p s' (k + 1) fuel

/-- `Mixer.toggle_fill(ingredient)` (mixer.py lines 472-486), with the
ingredient identified by its position; ends with `update(skip=ingredient)`. -/
def toggle_fill (p : ℕ) (s : State) : State :=
  update (some p) (toggleLoop p s 0 s.entries.length)

/-- `Mixer.add_ingredient` (mixer.py lines 346-375) for a `fludo.Liquid`
whose volume is `v`: the new row's scale bound and max label are set to the
container volume minus the sum of all current rows, the row is appended, and
`update()` runs.  There is no check against `MAX_INGREDIENTS`. -/
def add_ingredient (v : ℚ) (s : State) : State :=
  let remaining := s.container_vol - mlSum s.entries
  let e : Entry :=
    { eid := s.nextId, ml := v, liquidMl := v, scaleTo := remaining,
      mlMax := Label.num remaining, fill_set := false, traceOn := false }
  update none { s with entries := s.entries ++ [e], nextId := s.nextId + 1 }

/-- `Mixer.remove_ingredient` (mixer.py lines 403-438) called with a row
object: if the row is the filler it is toggled off first, then the object is
removed from the list (`list.remove`, first match by identity, modelled by
`eid`), then `update()` runs. -/
def remove_ingredient (x : Entry) (s : State) : State :=
  let s1 := if x.fill_set then
      toggle_fill (s.entries.findIdx (fun e => e.eid == x.eid)) s
    else s
  update none
    { s1 with entries := s1.entries.eraseP (fun e => e.eid == x.eid) }

/-- A direct volume edit through the row's entry field or scale: rejected
when the row is the filler (the entry is readonly) or when the value is
outside `[0, ml_scale['to']]` (`FloatValidator.validate_float_entry` with
`min_value=0`, `max_value=get_max_ml`, common.py lines 28-100); an accepted
write to `ml` fires its trace, which calls `Mixer.update(self)`. -/
def editVolume (p : ℕ) (v : ℚ) (s : State) : Option State :=
  match s.entries[p]? with
  | none => none
  | some e =>
    if e.fill_set then none
    else if 0 ≤ v ∧ v ≤ e.scaleTo then
      some (update (some p) (modifyEntry p (fun en => { en with ml := v }) s))
    else none

/-- Errors raised by the engine (`Exception` / `ValueError` / `IndexError`
in the source, distinguished here by the failing check). -/
inductive MixErr where
  | aboveMax
  | belowMin
  | volumeExceeds
  | tooMany
  | indexError
  | nameTooLong
deriving DecidableEq, Repr

/-- Modelled from the spec: `round_digits(value, 1)`, imported in mixer.py
from `common` but not present in src/common.py; per the spec (I4 and section
9 open question 3) one-decimal values are produced by truncation,
`round1(x) = floor(x * 10) / 10`, standardized to the same `int(x*10)/10`
truncation the rest of the engine uses. -/
def round_digits1 (q : ℚ) : ℚ := trunc1 q

/-- The per-row effect of the rescale loop of `Mixer.set_container_volume`
(mixer.py lines 292-295): the scale bound is set to `old_ml * ratio + 1` and
the scale is set to `old_ml * ratio`, which drives `ml` to
`round_digits(old_ml * ratio, 1)` through the scale command. -/
def rescaleEntry (r : ℚ) (e : Entry) : Entry :=
  { e with ml := round_digits1 (e.ml * r), scaleTo := e.ml * r + 1 }

/-- The state right after the rescale loop of `Mixer.set_container_volume`:
new container volume stored (mixer.py line 289, before the loop) and every
row rescaled by `ratio = new / old`. -/
def rescaledState (c : ℚ) (s : State) : State :=
  { s with container_vol := c,
           entries := s.entries.map (rescaleEntry (c / s.container_vol)) }

/-- `Mixer.set_container_volume` (mixer.py lines 280-297): bounds are checked
(max first, then min), the ratio is computed against the old volume, every
row is rescaled, and `update()` runs last, re-deriving the filler row. -/
def set_container_volume (c : ℚ) (s : State) : Except MixErr State :=
  if c > 10000 then .error .aboveMax
  else if c < 10 then .error .belowMin
  else Except.ok (update none (rescaledState c s))

/-- `Mixer.rename` (mixer.py lines 323-328): accepted only when the name
is shorter than `MAX_MIXTURE_NAME_LENGTH = 30`. -/
def rename (nm : String) (s : State) : Except MixErr State :=
  if nm.length < 30 then .ok { s with name := nm }
  else .error .nameTooLong

/-- The in-memory loadable dict produced by `Mixer.get_loadable` and consumed
by `Mixer.load`: the ingredients are the liquids (only their volumes matter
to the engine), plus container volume, optional filler index and optional
name. -/
structure Snapshot where
  ingredients : List ℚ
  container_vol : ℚ
  filler_idx : Option ℤ
  name : Option String
deriving DecidableEq, Repr

/-- `Mixer.get_filler_idx` (mixer.py lines 488-497). -/
def get_filler_idx (s : State) : Option ℕ :=
  s.entries.findIdx? (fun e => e.fill_set)

/-- `Mixer.get_loadable` (mixer.py lines 554-565): exports the liquids
(whose `ml` is the value last written by `update_ml`), the container volume,
the filler index and the mixture name. -/
def get_loadable (s : State) : Snapshot :=
  { ingredients := s.entries.map Entry.liquidMl,
    container_vol := s.container_vol,
    filler_idx := (get_filler_idx s).map Int.ofNat,
    name := some s.name }

/-- Python list indexing `lst[i]`: a negative index wraps once from the end;
returns the wrapped position, or `none` for an `IndexError`. -/
def pyIndex (n : ℕ) (i : ℤ) : Option ℕ :=
  if 0 ≤ i then (if i < (n : ℤ) then some i.toNat else none)
  else (if 0 ≤ (n : ℤ) + i then some ((n : ℤ) + i).toNat else none)

/-- The purge loop of `Mixer.load` (mixer.py lines 535-536):
`for ingredient in self._ingredient_list: self.remove_ingredient(ingredient)`
iterates by an advancing index over the list it is shrinking, so it skips
every element that slides into a just-removed position.  The fuel equals the
initial length, an upper bound on the number of iterations. -/
def purgeLoop : State → ℕ → ℕ → State
  | s, _, 0 => s
  | s, k, fuel + 1 =>
    match s.entries[k]? with
    | none => s
    | some e => purgeLoop (remove_ingredient e s) (k + 1) fuel

/-- The whole purge phase of `Mixer.load`. -/
def purge (s : State) : State :=
  purgeLoop s 0 s.entries.length

/-- `const.DEFAULT_MIXTURE_NAME`. -/
def defaultMixtureName : String := "Unsaved Mixture"

/-- The tail of `Mixer.load` (mixer.py lines 546-552): the rename — raising
when the name is 30 characters or longer, with the default name substituted
when the key is absent — followed by the final `update()`. -/
def loadRename (d : Snapshot) (s4 : State) : State × Option MixErr :=
  match rename (d.name.getD defaultMixtureName) s4 with
  | .error e => (s4, some e)
  | .ok s5 => (update none s5, none)

/-- The filler stage of `Mixer.load` (mixer.py lines 543-544): when
`filler_idx` is not `None`, index `_ingredient_list[filler_idx]` with Python
semantics — raising `IndexError` when out of range — and toggle that row. -/
def loadFiller (d : Snapshot) (s3 : State) : State × Option MixErr :=
  match d.filler_idx with
  | none => loadRename d s3
  | some i =>
    match pyIndex s3.entries.length i with
    | none => (s3, some .indexError)
    | some p => loadRename d (toggle_fill p s3)

/-- `Mixer.load` (mixer.py lines 499-552).  A falsy argument (`None` or an
empty dict) returns immediately.  The sum / container bounds / count checks
run first; then the purge, `set_container_volume`, the `add_ingredient`
calls, the filler stage and the rename stage.  The returned pair is the
state of the mixer when the call finishes — also when it raises, since a
raise leaves all mutations already performed in place — together with the
raised error, if any. -/
def load (d : Option Snapshot) (s : State) : State × Option MixErr :=
  match d with
  | none => (s, none)
  | some d =>
    if d.ingredients.sum > d.container_vol then (s, some .volumeExceeds)
    else if d.container_vol < 10 then (s, some .belowMin)
    else if d.container_vol > 10000 then (s, some .aboveMax)
    else if d.ingredients.length > 20 then (s, some .tooMany)
    else
      match set_container_volume d.container_vol (purge s) with
      | .error e => (purge s, some e)
      | .ok s2 =>
        loadFiller d (d.ingredients.foldl (fun st v => add_ingredient v st) s2)

/-- A fresh `Mixer` (mixer.py lines 267-271): no ingredients, container
defaulted to 100 ml, fill flag clear, default mixture name. -/
def initState : State :=
  { container_vol := 100, entries := [], fill_set := false,
    name := defaultMixtureName, nextId := 0 }

/-- The public operations of the engine: add an ingredient (initial volume
from the caller, the dialog path uses 0), remove a row, edit a row's volume,
resize the container, toggle the filler, load a snapshot. -/
inductive Op where
  | add (v : ℚ)
  | remove (p : ℕ)
  | edit (p : ℕ) (v : ℚ)
  | setCap (c : ℚ)
  | toggle (p : ℕ)
  | load (d : Option Snapshot)

/-- One completed public operation.  `none` means the operation was rejected
or raised without mutating; a raising `load` still commits its mutations, so
its result state is kept. -/
def applyOp : Op → State → Option State
  | .add v, s => if 0 ≤ v then some (add_ingredient v s) else none
  | .remove p, s => (s.entries[p]?).map (fun e => remove_ingredient e s)
  | .edit p v, s => editVolume p v s
  | .setCap c, s => (set_container_volume c s).toOption
  | .toggle p, s =>
      if p < s.entries.length then some (toggle_fill p s) else none
  | .load d, s => some (load d s).1

/-- States reachable from the empty ledger by completed public operations. -/
inductive Reachable : State → Prop where
  | init : Reachable initState
  | step {s s' : State} (op : Op) :
      Reachable s → applyOp op s = some s' → Reachable s'

end Fludo

namespace Fludo

/-! ### Concrete states used by the claims

`cxA`–`cxG` is a sequence of completed public operations from the empty
mixer, all of them possible through the UI (ingredients are added with the
dialog's volume 0, edits pass the entry validator against the current scale
bound): add, add, edit row 0 to 20, toggle the fill flag of row 1 on and
off again, then edit row 1 to 150 — accepted because row 1's scale bound
went stale at 160 while it was the filler — and finally toggle row 0. -/

def cxA : State := add_ingredient 0 initState

def cxB : State := add_ingredient 0 cxA

def cxC : State := (editVolume 0 20 cxB).getD initState

def cxD : State := toggle_fill 1 cxC

def cxE : State := toggle_fill 1 cxD

def cxF : State := (editVolume 1 150 cxE).getD initState

def cxG : State := toggle_fill 0 cxF

lemma reach_cxA : Reachable cxA :=
  Reachable.step (Op.add 0) Reachable.init (by with_unfolding_all decide)

lemma reach_cxB : Reachable cxB :=
  Reachable.step (Op.add 0) reach_cxA (by with_unfolding_all decide)

lemma reach_cxC : Reachable cxC :=
  Reachable.step (Op.edit 0 20) reach_cxB (by with_unfolding_all decide)

lemma reach_cxD : Reachable cxD :=
  Reachable.step (Op.toggle 1) reach_cxC (by with_unfolding_all decide)

lemma reach_cxE : Reachable cxE :=
  Reachable.step (Op.toggle 1) reach_cxD (by with_unfolding_all decide)

lemma reach_cxF : Reachable cxF :=
  Reachable.step (Op.edit 1 150) reach_cxE (by with_unfolding_all decide)

lemma reach_cxG : Reachable cxG :=
  Reachable.step (Op.toggle 0) reach_cxF (by with_unfolding_all decide)

/-- The filler row of `cxG`: its derived volume is negative, because the
fill trace computes `int((container - sum(others)) * 10) / 10` without any
clamping (mixer.py lines 773-777). -/
def cxGfiller : Entry :=
  { eid := 0, ml := -50, liquidMl := -50, scaleTo := -100,
    mlMax := Label.empty, fill_set := true, traceOn := true }

/-- I2 as claimed: at most one row has the fill flag set. -/
def AtMostOneFiller (s : State) : Prop :=
  ((s.entries.map Entry.fill_set).count true) ≤ 1

/-- The mixer with volumes 30 and 20 added to the default 100 ml container
(spec scenarios A and C). -/
def volA : State := add_ingredient 30 initState

def volAB : State := add_ingredient 20 volA

/-- A one-ingredient mixer used as the pre-load state for C3. -/
def c3start : State := add_ingredient 10 initState

/-- A snapshot that passes every pre-purge check of `Mixer.load` but whose
`filler_idx` is out of range of its ingredient list. -/
def c3snap : Snapshot :=
  { ingredients := [20], container_vol := 200, filler_idx := some 5,
    name := none }

/-- A snapshot satisfying none of the four claimed validation conditions,
but carrying a 30-character mixture name. -/
def c9snap : Snapshot :=
  { ingredients := [], container_vol := 100, filler_idx := none,
    name := some "aaaaaaaaaaaaaaaaaaaaaaaaaaaaaa" }

/-- A mixer holding `MAX_INGREDIENTS = 20` ingredients. -/
def st20 : State :=
  (List.range 20).foldl (fun s _ => add_ingredient 0 s) initState

/-- C1: the claim that the filler volume is always the clamped
`max(0, round1(capacity - sum(others)))` is false: in the reachable state
`cxG` the filler row holds volume -50, because the fill-trace derivation
(mixer.py lines 773-777) has no `max(0, ...)` clamp. -/
theorem c1_counterexample :
    ¬ (∀ s, Reachable s → ∀ e ∈ s.entries, e.fill_set = true →
        e.ml = max 0 (trunc1 (s.container_vol - (mlSum s.entries - e.ml)))) := by
  intro h
  have h2 := h cxG reach_cxG cxGfiller (by with_unfolding_all decide)
    (by with_unfolding_all decide)
  revert h2
  with_unfolding_all decide

/-- C2: the claimed invariant I1 fails on the code: `cxF` is reachable by
completed public operations, yet its non-filler volumes sum to 170 in a
100 ml container — the scale bound of a row is not refreshed while that row
is the one being skipped, so a bound computed while the row was the filler
survives the un-toggle and admits an edit beyond the capacity. -/
theorem c2_counterexample :
    ¬ (∀ s, Reachable s →
        nonFillerSum s.entries ≤ s.container_vol ∧ AtMostOneFiller s) := by
  intro h
  exact absurd (h cxF reach_cxF).1 (by with_unfolding_all decide)

/-- C3: `Mixer.load` is not atomic.  Loading `c3snap` into the one-element
mixer `c3start` raises `IndexError` at `_ingredient_list[filler_idx]`
(mixer.py line 544) only after the old ledger was purged, the container
resized from 100 to 200 and the new ingredient added: the error leaves the
mixer in the half-loaded state, not the previous one. -/
theorem c3_load_not_atomic :
    (load (some c3snap) c3start).2 = some MixErr.indexError ∧
    c3start.container_vol = 100 ∧
    (load (some c3snap) c3start).1.container_vol = 200 ∧
    c3start.entries.map Entry.ml = [10] ∧
    (load (some c3snap) c3start).1.entries.map Entry.ml = [20] := by
  with_unfolding_all decide

/-- C5: toggling the fill flag twice is not the identity on volumes: from
volumes [30, 20], toggling row 0 derives its volume to 80 and un-toggling
keeps the derived value (`_unset_fill` retains the last derived volume,
mixer.py lines 732-754), so the pre-toggle 30 is lost. -/
theorem c5_counterexample :
    ¬ (∀ (s : State) (p : ℕ), p < s.entries.length →
        (toggle_fill p (toggle_fill p s)).entries.map Entry.ml =
          s.entries.map Entry.ml) := by
  intro h
  exact absurd (h volAB 0 (by with_unfolding_all decide))
    (by with_unfolding_all decide)

/-- C6: `Mixer.add_ingredient` never checks `MAX_INGREDIENTS` (the source
carries the line-19 TODO admitting this): adding to a 20-ingredient mixer
appends a 21st row instead of rejecting. -/
theorem c6_add_no_max_check :
    st20.entries.length = 20 ∧
    (add_ingredient 0 st20).entries.length = 21 := by
  with_unfolding_all decide

/-- C7: the round-trip law fails.  From volumes [30, 20], `load(export())`
succeeds but yields volumes [20, 30, 20]: the purge loop of `Mixer.load`
removes elements of the list it is iterating, so it skips the second
ingredient, which survives alongside the re-added snapshot ingredients —
contradicting the docstring of `load` that promises to throw away every
ingredient. -/
theorem c7_roundtrip_fails :
    volAB.entries.map Entry.ml = [30, 20] ∧
    (load (some (get_loadable volAB)) volAB).2 = none ∧
    (load (some (get_loadable volAB)) volAB).1.entries.map Entry.ml =
      [20, 30, 20] := by
  with_unfolding_all decide

/-- C9: the claimed characterisation of load failures is refuted by `c9snap`:
none of the four claimed conditions holds of it, yet loading it fails,
because `Mixer.rename` rejects the 30-character name after the whole
snapshot was already loaded. -/
theorem c9_counterexample :
    ¬ (∀ d : Snapshot, (load (some d) initState).2.isSome = true ↔
        (d.container_vol < d.ingredients.sum ∨
         d.container_vol < 10 ∨ 10000 < d.container_vol ∨
         20 < d.ingredients.length ∨
         ∃ i, d.filler_idx = some i ∧
           (i < 0 ∨ (d.ingredients.length : ℤ) ≤ i))) := by
  intro h
  have h2 := (h c9snap).mp (by with_unfolding_all decide)
  rcases h2 with h3 | h3 | h3 | h3 | ⟨i, hi, _⟩
  · revert h3; with_unfolding_all decide
  · revert h3; with_unfolding_all decide
  · revert h3; with_unfolding_all decide
  · revert h3; with_unfolding_all decide
  · rw [show c9snap.filler_idx = none from rfl] at hi
    exact Option.noConfusion hi

/-- C10: a falsy loadable (`None` or the empty dict) makes `Mixer.load`
return immediately (mixer.py lines 513-514): no error and no change to any
part of the state. -/
theorem c10_falsy_load_noop : ∀ s : State, load none s = (s, none) :=
  fun _ => rfl

end Fludo

namespace Fludo

/-! ### Structural lemmas about the update loop -/

lemma mlSum_nil : mlSum [] = 0 := rfl

lemma mlSum_cons (e : Entry) (l : List Entry) :
    mlSum (e :: l) = e.ml + mlSum l := by
  simp [mlSum]

lemma mlSum_append (l1 l2 : List Entry) :
    mlSum (l1 ++ l2) = mlSum l1 + mlSum l2 := by
  simp [mlSum]

lemma length_updGo (cap free : ℚ) (skip : Option ℕ) :
    ∀ (todo done : List Entry),
      (updGo cap free skip done todo).length = done.length + todo.length := by
  intro todo
  induction todo with
  | nil => intro done; simp [updGo]
  | cons e t ih =>
    intro done
    rw [updGo, ih]
    simp
    omega

lemma map_fillSet_updGo (cap free : ℚ) (skip : Option ℕ) :
    ∀ (todo done : List Entry),
      (updGo cap free skip done todo).map Entry.fill_set =
        done.map Entry.fill_set ++ todo.map Entry.fill_set := by
  intro todo
  induction todo with
  | nil => intro done; simp [updGo]
  | cons e t ih =>
    intro done
    rw [updGo, ih]
    simp

lemma map_traceOn_updGo (cap free : ℚ) (skip : Option ℕ) :
    ∀ (todo done : List Entry),
      (updGo cap free skip done todo).map Entry.traceOn =
        done.map Entry.traceOn ++ todo.map Entry.traceOn := by
  intro todo
  induction todo with
  | nil => intro done; simp [updGo]
  | cons e t ih =>
    intro done
    rw [updGo, ih]
    simp

lemma forall_mem_updGo (cap free : ℚ) (skip : Option ℕ)
    (P : Entry → Prop)
    (hP : ∀ (e : Entry) (q1 q2 l : ℚ) (m : Label), P e →
      P { e with ml := q1, liquidMl := q2, scaleTo := l, mlMax := m }) :
    ∀ (todo done : List Entry), (∀ e ∈ done, P e) → (∀ e ∈ todo, P e) →
      ∀ x ∈ updGo cap free skip done todo, P x := by
  intro todo
  induction todo with
  | nil =>
    intro done hdone _ x hx
    rw [updGo] at hx
    exact hdone x hx
  | cons e t ih =>
    intro done hdone htodo x hx
    rw [updGo] at hx
    refine ih _ ?_ (fun y hy => htodo y (List.mem_cons_of_mem _ hy)) x hx
    intro y hy
    rcases List.mem_append.1 hy with hy | hy
    · exact hdone y hy
    · rcases List.mem_singleton.1 hy with rfl
      exact hP _ _ _ _ _ (htodo e (List.mem_cons_self e t))

lemma map_ml_updGo_untraced (cap free : ℚ) (skip : Option ℕ) :
    ∀ (todo done : List Entry), (∀ e ∈ todo, e.traceOn = false) →
      (updGo cap free skip done todo).map Entry.ml =
        done.map Entry.ml ++ todo.map Entry.ml := by
  intro todo
  induction todo with
  | nil => intro done _; simp [updGo]
  | cons e t ih =>
    intro done htr
    rw [updGo, ih _ (fun y hy => htr y (List.mem_cons_of_mem _ hy))]
    have he : e.traceOn = false := htr e (List.mem_cons_self e t)
    simp [he]

lemma map_ml_updGo_single (cap free : ℚ) (skip : Option ℕ) :
    ∀ (t1 : List Entry) (f : Entry) (t2 done : List Entry),
      (∀ e ∈ t1, e.traceOn = false) → (∀ e ∈ t2, e.traceOn = false) →
      f.traceOn = true →
      (updGo cap free skip done (t1 ++ f :: t2)).map Entry.ml =
        done.map Entry.ml ++ t1.map Entry.ml ++
          (trunc1 (cap - (mlSum done + mlSum t1 + mlSum t2)) ::
            t2.map Entry.ml) := by
  intro t1
  induction t1 with
  | nil =>
    intro f t2 done _ ht2 hf
    rw [List.nil_append, updGo,
      map_ml_updGo_untraced cap free skip _ _ ht2]
    simp [hf, mlSum_nil]
  | cons a t1 ih =>
    intro f t2 done ht1 ht2 hf
    rw [List.cons_append, updGo,
      ih f t2 _ (fun y hy => ht1 y (List.mem_cons_of_mem _ hy)) ht2 hf]
    have ha : a.traceOn = false := ht1 a (List.mem_cons_self a t1)
    simp [ha, mlSum_append, mlSum_cons, mlSum_nil]
    ring_nf

lemma getElem?_updGo_lt (cap free : ℚ) (skip : Option ℕ) :
    ∀ (todo done : List Entry) (j : ℕ), j < done.length →
      (updGo cap free skip done todo)[j]? = done[j]? := by
  intro todo
  induction todo with
  | nil => intro done j _; rw [updGo]
  | cons e t ih =>
    intro done j hj
    rw [updGo, ih _ _ (by simp; omega)]
    exact List.getElem?_append_left hj

lemma getElem?_updGo (cap free : ℚ) (skip : Option ℕ) :
    ∀ (todo done : List Entry) (k : ℕ) (e : Entry), todo[k]? = some e →
      ∃ e', (updGo cap free skip done todo)[done.length + k]? = some e' ∧
        e'.fill_set = e.fill_set ∧ e'.traceOn = e.traceOn ∧
        e'.scaleTo = (if skip = some (done.length + k) then e.scaleTo
                      else trunc1 (e.ml + free)) ∧
        e'.mlMax = (if e.fill_set then Label.empty
                    else if free < 1/10 then Label.full
                    else Label.num (if skip = some (done.length + k) then
                        e.scaleTo
                      else trunc1 (e.ml + free))) ∧
        (e.traceOn = false → e'.ml = e.ml) := by
  intro todo
  induction todo with
  | nil => intro done k e he; simp at he
  | cons a t ih =>
    intro done k e he
    match k with
    | 0 =>
      simp at he
      subst he
      rw [updGo, Nat.add_zero]
      refine ⟨{ a with
          scaleTo := if skip = some done.length then a.scaleTo
                     else trunc1 (a.ml + free),
          mlMax := if a.fill_set then Label.empty
                   else if free < 1/10 then Label.full
                   else Label.num (if skip = some done.length then a.scaleTo
                     else trunc1 (a.ml + free)),
          ml := if a.traceOn then trunc1 (cap - (mlSum done + mlSum t))
                else a.ml,
          liquidMl := if a.traceOn then trunc1 (cap - (mlSum done + mlSum t))
                      else a.ml }, ?_, rfl, rfl, rfl, rfl,
        fun htr => by simp [htr]⟩
      rw [getElem?_updGo_lt cap free skip _ _ _ (by simp)]
      exact List.getElem?_concat_length done _
    | k + 1 =>
      simp at he
      rw [updGo]
      have h2 := ih (done ++ [{ a with
          scaleTo := if skip = some done.length then a.scaleTo
                     else trunc1 (a.ml + free),
          mlMax := if a.fill_set then Label.empty
                   else if free < 1/10 then Label.full
                   else Label.num (if skip = some done.length then a.scaleTo
                     else trunc1 (a.ml + free)),
          ml := if a.traceOn = true then trunc1 (cap - (mlSum done + mlSum t))
                else a.ml,
          liquidMl := if a.traceOn = true then
              trunc1 (cap - (mlSum done + mlSum t))
            else a.ml }]) k e he
      simp only [List.length_append, List.length_cons, List.length_nil] at h2
      have harith : done.length + 1 + k = done.length + (k + 1) := by omega
      rw [harith] at h2
      exact h2

end Fludo

namespace Fludo

/-! ### Views of a state as lists of flags, traces, and volumes -/

/-- The fill flags of the rows, in order. -/
def flags (s : State) : List Bool := s.entries.map Entry.fill_set

/-- The fill-trace indicators of the rows, in order. -/
def traces (s : State) : List Bool := s.entries.map Entry.traceOn

/-- The volumes of the rows, in order. -/
def mls (s : State) : List ℚ := s.entries.map Entry.ml

lemma length_update (skip : Option ℕ) (s : State) :
    (update skip s).entries.length = s.entries.length := by
  simp [update, length_updGo]

lemma container_update (skip : Option ℕ) (s : State) :
    (update skip s).container_vol = s.container_vol := rfl

lemma flags_update (skip : Option ℕ) (s : State) :
    flags (update skip s) = flags s := by
  simp [flags, update, map_fillSet_updGo]

lemma traces_update (skip : Option ℕ) (s : State) :
    traces (update skip s) = traces s := by
  simp [traces, update, map_traceOn_updGo]

lemma mls_update_untraced (skip : Option ℕ) (s : State)
    (h : ∀ e ∈ s.entries, e.traceOn = false) :
    mls (update skip s) = mls s := by
  simp [mls, update, map_ml_updGo_untraced _ _ _ _ _ h]

/-! ### Lemmas about point modification of a row -/

lemma length_listModify (f : Entry → Entry) :
    ∀ (l : List Entry) (n : ℕ), (listModify f l n).length = l.length := by
  intro l
  induction l with
  | nil => intro n; rfl
  | cons a t ih =>
    intro n
    match n with
    | 0 => rfl
    | n + 1 => simp [listModify, ih]

lemma map_listModify_eq {β : Type} (f : Entry → Entry) (g : Entry → β)
    (h : ∀ a, g (f a) = g a) :
    ∀ (l : List Entry) (n : ℕ), (listModify f l n).map g = l.map g := by
  intro l
  induction l with
  | nil => intro n; rfl
  | cons a t ih =>
    intro n
    match n with
    | 0 => simp [listModify, h]
    | n + 1 => simp [listModify, ih]

lemma map_listModify_const {β : Type} (f : Entry → Entry) (g : Entry → β)
    (c : β) (h : ∀ a, g (f a) = c) :
    ∀ (l : List Entry) (n : ℕ), (listModify f l n).map g = (l.map g).set n c := by
  intro l
  induction l with
  | nil => intro n; rfl
  | cons a t ih =>
    intro n
    match n with
    | 0 => simp [listModify, h]
    | n + 1 => simp [listModify, ih]

lemma getElem?_listModify_ne (f : Entry → Entry) :
    ∀ (l : List Entry) (n j : ℕ), j ≠ n →
      (listModify f l n)[j]? = l[j]? := by
  intro l
  induction l with
  | nil => intro n j _; rfl
  | cons a t ih =>
    intro n j hj
    match n, j with
    | 0, 0 => omega
    | 0, j + 1 => simp [listModify]
    | n + 1, 0 => simp [listModify]
    | n + 1, j + 1 =>
      simp only [listModify, List.getElem?_cons_succ]
      exact ih n j (by omega)

lemma getElem?_listModify_self (f : Entry → Entry) :
    ∀ (l : List Entry) (n : ℕ),
      (listModify f l n)[n]? = (l[n]?).map f := by
  intro l
  induction l with
  | nil => intro n; rfl
  | cons a t ih =>
    intro n
    match n with
    | 0 => simp [listModify]
    | n + 1 => simp [listModify, ih]

lemma forall_mem_listModify (f : Entry → Entry) (P : Entry → Prop)
    (hf : ∀ a, P a → P (f a)) :
    ∀ (l : List Entry) (n : ℕ), (∀ e ∈ l, P e) →
      ∀ e ∈ listModify f l n, P e := by
  intro l
  induction l with
  | nil => intro n _ e he; simp [listModify] at he
  | cons a t ih =>
    intro n hl e he
    match n with
    | 0 =>
      rcases List.mem_cons.1 he with rfl | he
      · exact hf a (hl a (List.mem_cons_self a t))
      · exact hl e (List.mem_cons_of_mem _ he)
    | n + 1 =>
      rcases List.mem_cons.1 he with rfl | he
      · exact hl e (List.mem_cons_self _ _)
      · exact ih n (fun y hy => hl y (List.mem_cons_of_mem _ hy)) e he

/-! ### The effect of set-fill and unset-fill on flags and traces -/

lemma flags_modifyEntry_eq (p : ℕ) (f : Entry → Entry) (s : State)
    (h : ∀ a, (f a).fill_set = a.fill_set) :
    flags (modifyEntry p f s) = flags s := by
  unfold flags modifyEntry
  exact map_listModify_eq f _ h _ p

lemma flags_modifyEntry_const (p : ℕ) (f : Entry → Entry) (s : State)
    (c : Bool) (h : ∀ a, (f a).fill_set = c) :
    flags (modifyEntry p f s) = (flags s).set p c := by
  unfold flags modifyEntry
  exact map_listModify_const f _ c h _ p

lemma traces_modifyEntry_eq (p : ℕ) (f : Entry → Entry) (s : State)
    (h : ∀ a, (f a).traceOn = a.traceOn) :
    traces (modifyEntry p f s) = traces s := by
  unfold traces modifyEntry
  exact map_listModify_eq f _ h _ p

lemma traces_modifyEntry_const (p : ℕ) (f : Entry → Entry) (s : State)
    (c : Bool) (h : ∀ a, (f a).traceOn = c) :
    traces (modifyEntry p f s) = (traces s).set p c := by
  unfold traces modifyEntry
  exact map_listModify_const f _ c h _ p

lemma mls_modifyEntry_eq (p : ℕ) (f : Entry → Entry) (s : State)
    (h : ∀ a, (f a).ml = a.ml) :
    mls (modifyEntry p f s) = mls s := by
  unfold mls modifyEntry
  exact map_listModify_eq f _ h _ p

lemma length_modifyEntry (p : ℕ) (f : Entry → Entry) (s : State) :
    (modifyEntry p f s).entries.length = s.entries.length := by
  unfold modifyEntry
  exact length_listModify f _ p

lemma container_modifyEntry (p : ℕ) (f : Entry → Entry) (s : State) :
    (modifyEntry p f s).container_vol = s.container_vol := rfl

lemma unset_fill_eq (p : ℕ) (s : State) :
    unset_fill p s =
      modifyEntry p (fun e => { e with fill_set := false })
        (update (some p)
          (modifyEntry p (fun e => { e with traceOn := false }) s)) := rfl

lemma set_fill_eq (p : ℕ) (s : State) :
    set_fill p s =
      modifyEntry p (fun e => { e with fill_set := true })
        (update (some p)
          (modifyEntry p (fun e => { e with traceOn := true }) s)) := rfl

lemma flags_unset_fill (p : ℕ) (s : State) :
    flags (unset_fill p s) = (flags s).set p false := by
  rw [unset_fill_eq,
    flags_modifyEntry_const _ _ _ false (fun a => rfl), flags_update,
    flags_modifyEntry_eq p (fun e => { e with traceOn := false }) s
      (fun a => rfl)]

lemma traces_unset_fill (p : ℕ) (s : State) :
    traces (unset_fill p s) = (traces s).set p false := by
  rw [unset_fill_eq,
    traces_modifyEntry_eq p (fun e => { e with fill_set := false }) _
      (fun a => rfl),
    traces_update,
    traces_modifyEntry_const _ _ _ false (fun a => rfl)]

lemma flags_set_fill (p : ℕ) (s : State) :
    flags (set_fill p s) = (flags s).set p true := by
  rw [set_fill_eq,
    flags_modifyEntry_const _ _ _ true (fun a => rfl), flags_update,
    flags_modifyEntry_eq p (fun e => { e with traceOn := true }) s
      (fun a => rfl)]

lemma traces_set_fill (p : ℕ) (s : State) :
    traces (set_fill p s) = (traces s).set p true := by
  rw [set_fill_eq,
    traces_modifyEntry_eq p (fun e => { e with fill_set := true }) _
      (fun a => rfl),
    traces_update,
    traces_modifyEntry_const _ _ _ true (fun a => rfl)]

lemma length_unset_fill (p : ℕ) (s : State) :
    (unset_fill p s).entries.length = s.entries.length := by
  unfold unset_fill modifyEntry
  simp [length_listModify, length_updGo, update]

lemma length_set_fill (p : ℕ) (s : State) :
    (set_fill p s).entries.length = s.entries.length := by
  unfold set_fill modifyEntry
  simp [length_listModify, length_updGo, update]

lemma container_unset_fill (p : ℕ) (s : State) :
    (unset_fill p s).container_vol = s.container_vol := rfl

lemma container_set_fill (p : ℕ) (s : State) :
    (set_fill p s).container_vol = s.container_vol := rfl

end Fludo

namespace Fludo

/-! ### Flags through the toggle loop -/

lemma getElem?_set_self_of_lt {α : Type} :
    ∀ (l : List α) (k : ℕ) (a : α), k < l.length → (l.set k a)[k]? = some a := by
  intro l
  induction l with
  | nil => intro k a h; simp at h
  | cons b t ih =>
    intro k a h
    match k with
    | 0 => simp
    | k + 1 =>
      simp only [List.set_cons_succ, List.getElem?_cons_succ]
      exact ih k a (by simp at h; omega)

lemma length_toggleLoop (p : ℕ) :
    ∀ (fuel k : ℕ) (s : State),
      (toggleLoop p s k fuel).entries.length = s.entries.length := by
  intro fuel
  induction fuel with
  | zero => intro k s; rfl
  | succ fuel ih =>
    intro k s
    rw [toggleLoop]
    cases hk : s.entries[k]? with
    | none => rfl
    | some e =>
      simp only []
      split
      · split
        · rw [ih]
          exact length_unset_fill p s
        · rw [ih]
          exact length_set_fill p s
      · rw [ih]
        exact length_unset_fill k s

lemma flags_toggleLoop_lt (p : ℕ) :
    ∀ (fuel k : ℕ) (s : State) (j : ℕ), j < k →
      (flags (toggleLoop p s k fuel))[j]? = (flags s)[j]? := by
  intro fuel
  induction fuel with
  | zero => intro k s j _; rfl
  | succ fuel ih =>
    intro k s j hj
    rw [toggleLoop]
    cases hk : s.entries[k]? with
    | none => rfl
    | some e =>
      simp only []
      split
      · rename_i hkp
        subst hkp
        split
        · rw [ih _ _ _ (by omega),
            show flags { unset_fill k s with fill_set := false } =
              (flags s).set k false from flags_unset_fill k s]
          exact List.getElem?_set_ne (by omega)
        · rw [ih _ _ _ (by omega),
            show flags { set_fill k s with fill_set := true } =
              (flags s).set k true from flags_set_fill k s]
          exact List.getElem?_set_ne (by omega)
      · rw [ih _ _ _ (by omega), flags_unset_fill]
        exact List.getElem?_set_ne (by omega)

lemma flags_toggleLoop_ge (p : ℕ) :
    ∀ (fuel k : ℕ) (s : State) (j : ℕ), k ≤ j → j ≠ p →
      j < s.entries.length → j < k + fuel →
      (flags (toggleLoop p s k fuel))[j]? = some false := by
  intro fuel
  induction fuel with
  | zero => intro k s j h1 _ _ h4; omega
  | succ fuel ih =>
    intro k s j h1 h2 h3 h4
    rw [toggleLoop]
    cases hk : s.entries[k]? with
    | none =>
      have : s.entries.length ≤ k := by
        by_contra hc
        rw [List.getElem?_eq_getElem (by omega)] at hk
        exact Option.noConfusion hk
      omega
    | some e =>
      simp only []
      rcases Nat.lt_or_ge k j with hkj | hkj
      · -- j is processed later: use the induction hypothesis
        split
        · rename_i hkp2
          subst hkp2
          split
          · exact ih _ _ _ hkj h2
              (by rw [show ({ unset_fill k s with fill_set := false } :
                  State).entries = (unset_fill k s).entries from rfl,
                  length_unset_fill]; exact h3) (by omega)
          · exact ih _ _ _ hkj h2
              (by rw [show ({ set_fill k s with fill_set := true } :
                  State).entries = (set_fill k s).entries from rfl,
                  length_set_fill]; exact h3) (by omega)
        · exact ih _ _ _ hkj h2 (by rw [length_unset_fill]; exact h3)
            (by omega)
      · -- j = k: this very iteration clears the flag, and it stays cleared
        have hjk : j = k := by omega
        subst hjk
        split
        · rename_i hkp2
          omega
        · rw [flags_toggleLoop_lt p fuel (j + 1) _ j (by omega),
            flags_unset_fill]
          exact getElem?_set_self_of_lt _ j false
            (by rw [flags, List.length_map]; exact h3)

lemma flags_toggle_fill_ne (p : ℕ) (s : State) (j : ℕ) (hj : j ≠ p)
    (hlen : j < s.entries.length) :
    (flags (toggle_fill p s))[j]? = some false := by
  unfold toggle_fill
  rw [flags_update]
  exact flags_toggleLoop_ge p s.entries.length 0 s j (by omega) hj hlen
    (by omega)

/-! ### Counting fill flags -/

lemma count_true_zero_of_all_false :
    ∀ (l : List Bool), (∀ i, i < l.length → l[i]? = some false) →
      l.count true = 0 := by
  intro l
  induction l with
  | nil => intro _; rfl
  | cons b t ih =>
    intro h
    have hb : b = false := by
      have := h 0 (by simp)
      simpa using this
    subst hb
    have h2 := ih (fun i hi => by
      have := h (i + 1) (by simp; omega)
      simpa using this)
    simp [List.count_cons, h2]

lemma count_true_le_one_of_forall :
    ∀ (l : List Bool) (p : ℕ),
      (∀ j, j ≠ p → j < l.length → l[j]? = some false) →
      l.count true ≤ 1 := by
  intro l
  induction l with
  | nil => intro p _; simp
  | cons b t ih =>
    intro p h
    match p with
    | 0 =>
      have ht : t.count true = 0 := by
        refine count_true_zero_of_all_false t (fun i hi => ?_)
        have := h (i + 1) (by omega) (by simp; omega)
        simpa using this
      rw [List.count_cons, ht]
      split <;> simp
    | p + 1 =>
      have hb : b = false := by
        have := h 0 (by omega) (by simp)
        simpa using this
      subst hb
      rw [List.count_cons]
      have := ih p (fun j hj hjl => by
        have := h (j + 1) (by omega) (by simp; omega)
        simpa using this)
      simp [this]

lemma count_true_set_false_le :
    ∀ (l : List Bool) (p : ℕ),
      (l.set p false).count true ≤ l.count true := by
  intro l
  induction l with
  | nil => intro p; simp
  | cons b t ih =>
    intro p
    match p with
    | 0 =>
      cases b <;> simp [List.count_cons]
    | p + 1 =>
      rw [List.set_cons_succ, List.count_cons, List.count_cons]
      have := ih p
      split <;> omega

end Fludo

namespace Fludo

/-! ### I2: at most one filler, preserved by every operation -/

lemma amof_iff (s : State) : AtMostOneFiller s ↔ (flags s).count true ≤ 1 :=
  Iff.rfl

lemma amof_update (skip : Option ℕ) (s : State) (h : AtMostOneFiller s) :
    AtMostOneFiller (update skip s) := by
  rw [amof_iff, flags_update]
  exact h

lemma amof_toggle_fill (p : ℕ) (s : State) :
    AtMostOneFiller (toggle_fill p s) := by
  rw [amof_iff]
  refine count_true_le_one_of_forall _ p (fun j hj hjl => ?_)
  refine flags_toggle_fill_ne p s j hj ?_
  rw [flags, List.length_map, toggle_fill, length_update,
    length_toggleLoop] at hjl
  exact hjl

lemma flags_add_ingredient (v : ℚ) (s : State) :
    flags (add_ingredient v s) = flags s ++ [false] := by
  unfold add_ingredient
  rw [show ∀ t : State, flags (update none t) = flags t from
    fun t => flags_update none t]
  simp [flags]

lemma amof_add_ingredient (v : ℚ) (s : State) (h : AtMostOneFiller s) :
    AtMostOneFiller (add_ingredient v s) := by
  rw [amof_iff, flags_add_ingredient, List.count_append]
  simpa using h

lemma editVolume_eq (p : ℕ) (v : ℚ) (s : State) :
    editVolume p v s =
      match s.entries[p]? with
      | none => none
      | some e =>
        if e.fill_set then none
        else if 0 ≤ v ∧ v ≤ e.scaleTo then
          some (update (some p)
            (modifyEntry p (fun en => { en with ml := v }) s))
        else none := rfl

lemma editVolume_some (p : ℕ) (v : ℚ) (s s' : State)
    (hs : editVolume p v s = some s') :
    ∃ e, s.entries[p]? = some e ∧ e.fill_set = false ∧
      0 ≤ v ∧ v ≤ e.scaleTo ∧
      s' = update (some p) (modifyEntry p (fun en => { en with ml := v }) s) := by
  rw [editVolume_eq] at hs
  split at hs
  · exact Option.noConfusion hs
  · rename_i e heq
    split at hs
    · exact Option.noConfusion hs
    · rename_i hf
      split at hs
      · rename_i hv
        injection hs with hs2
        exact ⟨e, heq, by simpa using hf, hv.1, hv.2, hs2.symm⟩
      · exact Option.noConfusion hs

lemma amof_editVolume (p : ℕ) (v : ℚ) (s s' : State)
    (hs : editVolume p v s = some s') (h : AtMostOneFiller s) :
    AtMostOneFiller s' := by
  rcases editVolume_some p v s s' hs with ⟨e, _, _, _, _, rfl⟩
  refine amof_update _ _ ?_
  rw [amof_iff,
    flags_modifyEntry_eq p (fun en => { en with ml := v }) s (fun a => rfl)]
  exact h

lemma amof_eraseP (q : Entry → Bool) (s : State) (h : AtMostOneFiller s) :
    ((s.entries.eraseP q).map Entry.fill_set).count true ≤ 1 := by
  refine le_trans ?_ h
  refine List.Sublist.count_le ?_ true
  exact List.Sublist.map Entry.fill_set (List.eraseP_sublist s.entries)

lemma amof_remove_ingredient (x : Entry) (s : State)
    (h : AtMostOneFiller s) : AtMostOneFiller (remove_ingredient x s) := by
  unfold remove_ingredient
  split
  · refine amof_update _ _ ?_
    exact amof_eraseP _ _ (amof_toggle_fill _ s)
  · exact amof_update _ _ (amof_eraseP _ _ h)

lemma flags_map_entries (g : Entry → Entry) (s : State)
    (hg : ∀ e, (g e).fill_set = e.fill_set) :
    (s.entries.map g).map Entry.fill_set = flags s := by
  rw [List.map_map, flags]
  exact List.map_congr_left (fun e _ => hg e)

lemma set_container_volume_ok (c : ℚ) (s s' : State)
    (hs : set_container_volume c s = Except.ok s') :
    ¬ c > 10000 ∧ ¬ c < 10 ∧ s' = update none (rescaledState c s) := by
  unfold set_container_volume at hs
  by_cases h1 : c > 10000
  · rw [if_pos h1] at hs; exact Except.noConfusion hs
  · rw [if_neg h1] at hs
    by_cases h2 : c < 10
    · rw [if_pos h2] at hs; exact Except.noConfusion hs
    · rw [if_neg h2] at hs
      injection hs with hs2
      exact ⟨h1, h2, hs2.symm⟩

lemma amof_set_container_volume (c : ℚ) (s s' : State)
    (hs : set_container_volume c s = Except.ok s')
    (h : AtMostOneFiller s) : AtMostOneFiller s' := by
  rcases set_container_volume_ok c s s' hs with ⟨_, _, rfl⟩
  refine amof_update _ _ ?_
  rw [amof_iff]
  show ((s.entries.map (rescaleEntry (c / s.container_vol))).map
    Entry.fill_set).count true ≤ 1
  rw [flags_map_entries (rescaleEntry (c / s.container_vol)) s
    (fun e => rfl)]
  exact h

lemma amof_purgeLoop :
    ∀ (fuel k : ℕ) (s : State), AtMostOneFiller s →
      AtMostOneFiller (purgeLoop s k fuel) := by
  intro fuel
  induction fuel with
  | zero => intro k s h; exact h
  | succ fuel ih =>
    intro k s h
    rw [purgeLoop]
    cases hk : s.entries[k]? with
    | none => exact h
    | some e => exact ih _ _ (amof_remove_ingredient e s h)

lemma amof_foldl_add :
    ∀ (l : List ℚ) (s : State), AtMostOneFiller s →
      AtMostOneFiller (l.foldl (fun st v => add_ingredient v st) s) := by
  intro l
  induction l with
  | nil => intro s h; exact h
  | cons v t ih => intro s h; exact ih _ (amof_add_ingredient v s h)

lemma amof_rename (nm : String) (s s' : State)
    (hs : rename nm s = Except.ok s') (h : AtMostOneFiller s) :
    AtMostOneFiller s' := by
  unfold rename at hs
  split at hs
  · injection hs with hs2
    subst hs2
    exact h
  · exact Except.noConfusion hs

lemma amof_loadRename (d : Snapshot) (s : State) (h : AtMostOneFiller s) :
    AtMostOneFiller (loadRename d s).1 := by
  unfold loadRename
  split
  · exact h
  · rename_i s5 hr
    exact amof_update _ _ (amof_rename _ _ _ hr h)

lemma amof_loadFiller (d : Snapshot) (s : State) (h : AtMostOneFiller s) :
    AtMostOneFiller (loadFiller d s).1 := by
  unfold loadFiller
  split
  · exact amof_loadRename d s h
  · split
    · exact h
    · exact amof_loadRename d _ (amof_toggle_fill _ s)

lemma amof_load (d : Option Snapshot) (s : State) (h : AtMostOneFiller s) :
    AtMostOneFiller (load d s).1 := by
  cases d with
  | none => exact h
  | some d =>
    unfold load
    split
    · exact h
    · split_ifs with h1 h2 h3 h4
      · exact h
      · exact h
      · exact h
      · exact h
      · split
        · exact amof_purgeLoop _ _ _ h
        · rename_i s2 hsc
          exact amof_loadFiller _ _ (amof_foldl_add _ _
            (amof_set_container_volume _ _ _ hsc (amof_purgeLoop _ _ _ h)))

lemma amof_applyOp (op : Op) (s s' : State)
    (hs : applyOp op s = some s') (h : AtMostOneFiller s) :
    AtMostOneFiller s' := by
  cases op with
  | add v =>
    simp only [applyOp] at hs
    split at hs
    · injection hs with hs2; subst hs2; exact amof_add_ingredient v s h
    · exact Option.noConfusion hs
  | remove p =>
    simp only [applyOp] at hs
    cases hp : s.entries[p]? with
    | none => rw [hp] at hs; exact Option.noConfusion hs
    | some e =>
      rw [hp] at hs
      injection hs with hs2
      subst hs2
      exact amof_remove_ingredient e s h
  | edit p v =>
    simp only [applyOp] at hs
    exact amof_editVolume p v s s' hs h
  | setCap c =>
    simp only [applyOp] at hs
    cases hc : set_container_volume c s with
    | error e => rw [hc] at hs; exact Option.noConfusion hs
    | ok s2 =>
      rw [hc] at hs
      injection hs with hs2
      subst hs2
      exact amof_set_container_volume c s _ hc h
  | toggle p =>
    simp only [applyOp] at hs
    split at hs
    · injection hs with hs2; subst hs2; exact amof_toggle_fill p s
    · exact Option.noConfusion hs
  | load d =>
    simp only [applyOp] at hs
    injection hs with hs2
    subst hs2
    exact amof_load d s h

end Fludo

namespace Fludo

/-- C2 (amended): invariant I2 — at most one filler — holds in every state
reachable from the empty mixer by completed public operations. -/
theorem c2_at_most_one_filler : ∀ s : State, Reachable s → AtMostOneFiller s := by
  intro s h
  induction h with
  | init => rw [amof_iff]; simp [flags, initState]
  | step op hr hop ih => exact amof_applyOp op _ _ hop ih

/-- Witness for the amended C2 at the reachable state `cxD`, whose row 1 is
the filler. -/
theorem c2_at_most_one_filler_witness : AtMostOneFiller cxD :=
  c2_at_most_one_filler cxD reach_cxD

/-! ### Positional helpers -/

lemma getElem?_of_mem {α : Type} (l : List α) (a : α) (h : a ∈ l) :
    ∃ i : ℕ, l[i]? = some a := by
  rcases List.mem_iff_getElem.1 h with ⟨i, hi, he⟩
  exact ⟨i, by rw [List.getElem?_eq_getElem hi, he]⟩

lemma mem_of_getElem? {α : Type} (l : List α) (i : ℕ) (a : α)
    (h : l[i]? = some a) : a ∈ l := by
  have hi : i < l.length := by
    by_contra hc
    rw [List.getElem?_eq_none (by omega)] at h
    exact Option.noConfusion h
  rw [List.getElem?_eq_getElem hi] at h
  injection h with h2
  exact h2 ▸ List.getElem_mem hi

lemma lt_length_of_getElem? {α : Type} (l : List α) (i : ℕ) (a : α)
    (h : l[i]? = some a) : i < l.length := by
  by_contra hc
  rw [List.getElem?_eq_none (by omega)] at h
  exact Option.noConfusion h

lemma eq_of_count_le_one :
    ∀ (l : List Bool), l.count true ≤ 1 → ∀ i j : ℕ,
      l[i]? = some true → l[j]? = some true → i = j := by
  intro l
  induction l with
  | nil => intro _ i j hi _; simp at hi
  | cons b t ih =>
    intro h i j hi hj
    have hcc : (b :: t).count true = t.count true + if b = true then 1 else 0 := by
      rw [List.count_cons]
      congr 1
      by_cases hb : b = true <;> simp [hb]
    have hpos : ∀ m : ℕ, t[m]? = some true → 0 < t.count true := by
      intro m hm
      exact List.count_pos_iff.mpr (mem_of_getElem? t m true hm)
    match i, j with
    | 0, 0 => rfl
    | 0, j + 1 =>
      simp at hi
      rw [List.getElem?_cons_succ] at hj
      rw [hcc, if_pos hi] at h
      have := hpos j hj
      omega
    | i + 1, 0 =>
      simp at hj
      rw [List.getElem?_cons_succ] at hi
      rw [hcc, if_pos hj] at h
      have := hpos i hi
      omega
    | i + 1, j + 1 =>
      rw [List.getElem?_cons_succ] at hi hj
      have ht : t.count true ≤ 1 := by rw [hcc] at h; omega
      rw [ih ht i j hi hj]

/-! ### Trace-flag synchronisation -/

/-- In a quiescent state, the fill trace is installed exactly on the rows
whose fill flag is set (they diverge only transiently inside
`_set_fill` / `_unset_fill`). -/
def Synced (s : State) : Prop := traces s = flags s

lemma synced_update (skip : Option ℕ) (s : State) (h : Synced s) :
    Synced (update skip s) := by
  unfold Synced
  rw [traces_update, flags_update]
  exact h

lemma synced_unset_fill (p : ℕ) (s : State) (h : Synced s) :
    Synced (unset_fill p s) := by
  unfold Synced
  rw [traces_unset_fill, flags_unset_fill, h]

lemma synced_set_fill (p : ℕ) (s : State) (h : Synced s) :
    Synced (set_fill p s) := by
  unfold Synced
  rw [traces_set_fill, flags_set_fill, h]

lemma synced_toggleLoop (p : ℕ) :
    ∀ (fuel k : ℕ) (s : State), Synced s → Synced (toggleLoop p s k fuel) := by
  intro fuel
  induction fuel with
  | zero => intro k s h; exact h
  | succ fuel ih =>
    intro k s h
    rw [toggleLoop]
    cases hk : s.entries[k]? with
    | none => exact h
    | some e =>
      simp only []
      split
      · split
        · exact ih _ _ (synced_unset_fill p s h)
        · exact ih _ _ (synced_set_fill p s h)
      · exact ih _ _ (synced_unset_fill k s h)

lemma synced_toggle_fill (p : ℕ) (s : State) (h : Synced s) :
    Synced (toggle_fill p s) :=
  synced_update _ _ (synced_toggleLoop p _ 0 s h)

lemma synced_add_ingredient (v : ℚ) (s : State) (h : Synced s) :
    Synced (add_ingredient v s) := by
  refine synced_update _ _ ?_
  unfold Synced traces flags
  simp only [List.map_append]
  unfold Synced traces flags at h
  rw [h]
  simp

lemma map_eq_map_eraseP (f g : Entry → Bool) (q : Entry → Bool) :
    ∀ es : List Entry, es.map f = es.map g →
      (es.eraseP q).map f = (es.eraseP q).map g := by
  intro es
  induction es with
  | nil => intro _; rfl
  | cons e t ih =>
    intro h
    simp only [List.map_cons, List.cons.injEq] at h
    cases hq : q e with
    | true => simp [List.eraseP_cons, hq, h.2]
    | false => simp [List.eraseP_cons, hq, h.1, ih h.2]

lemma synced_remove_ingredient (x : Entry) (s : State) (h : Synced s) :
    Synced (remove_ingredient x s) := by
  unfold remove_ingredient
  split
  · refine synced_update _ _ ?_
    exact map_eq_map_eraseP _ _ _ _ (synced_toggle_fill _ s h)
  · exact synced_update _ _ (map_eq_map_eraseP _ _ _ _ h)

lemma synced_modifyEntry_ml (p : ℕ) (v : ℚ) (s : State) (h : Synced s) :
    Synced (modifyEntry p (fun en => { en with ml := v }) s) := by
  unfold Synced
  rw [traces_modifyEntry_eq p (fun en => { en with ml := v }) s
      (fun a => rfl),
    flags_modifyEntry_eq p (fun en => { en with ml := v }) s (fun a => rfl)]
  exact h

lemma synced_editVolume (p : ℕ) (v : ℚ) (s s' : State)
    (hs : editVolume p v s = some s') (h : Synced s) : Synced s' := by
  rcases editVolume_some p v s s' hs with ⟨e, _, _, _, _, rfl⟩
  exact synced_update _ _ (synced_modifyEntry_ml p v s h)

lemma traces_map_entries (g : Entry → Entry) (s : State)
    (hg : ∀ e, (g e).traceOn = e.traceOn) :
    (s.entries.map g).map Entry.traceOn = traces s := by
  rw [List.map_map, traces]
  exact List.map_congr_left (fun e _ => hg e)

lemma synced_set_container_volume (c : ℚ) (s s' : State)
    (hs : set_container_volume c s = Except.ok s') (h : Synced s) :
    Synced s' := by
  rcases set_container_volume_ok c s s' hs with ⟨_, _, rfl⟩
  refine synced_update _ _ ?_
  unfold Synced
  show (s.entries.map (rescaleEntry (c / s.container_vol))).map
      Entry.traceOn =
    (s.entries.map (rescaleEntry (c / s.container_vol))).map Entry.fill_set
  rw [traces_map_entries (rescaleEntry (c / s.container_vol)) s
    (fun e => rfl)]
  rw [flags_map_entries (rescaleEntry (c / s.container_vol)) s
    (fun e => rfl)]
  exact h

lemma synced_purgeLoop :
    ∀ (fuel k : ℕ) (s : State), Synced s → Synced (purgeLoop s k fuel) := by
  intro fuel
  induction fuel with
  | zero => intro k s h; exact h
  | succ fuel ih =>
    intro k s h
    rw [purgeLoop]
    cases hk : s.entries[k]? with
    | none => exact h
    | some e => exact ih _ _ (synced_remove_ingredient e s h)

lemma synced_foldl_add :
    ∀ (l : List ℚ) (s : State), Synced s →
      Synced (l.foldl (fun st v => add_ingredient v st) s) := by
  intro l
  induction l with
  | nil => intro s h; exact h
  | cons v t ih => intro s h; exact ih _ (synced_add_ingredient v s h)

lemma synced_rename (nm : String) (s s' : State)
    (hs : rename nm s = Except.ok s') (h : Synced s) : Synced s' := by
  unfold rename at hs
  split at hs
  · injection hs with hs2
    subst hs2
    exact h
  · exact Except.noConfusion hs

lemma synced_loadRename (d : Snapshot) (s : State) (h : Synced s) :
    Synced (loadRename d s).1 := by
  unfold loadRename
  split
  · exact h
  · rename_i s5 hr
    exact synced_update _ _ (synced_rename _ _ _ hr h)

lemma synced_loadFiller (d : Snapshot) (s : State) (h : Synced s) :
    Synced (loadFiller d s).1 := by
  unfold loadFiller
  split
  · exact synced_loadRename d s h
  · split
    · exact h
    · exact synced_loadRename d _ (synced_toggle_fill _ s h)

lemma synced_load (d : Option Snapshot) (s : State) (h : Synced s) :
    Synced (load d s).1 := by
  cases d with
  | none => exact h
  | some d =>
    unfold load
    split
    · exact h
    · split_ifs with h1 h2 h3 h4
      · exact h
      · exact h
      · exact h
      · exact h
      · split
        · exact synced_purgeLoop _ _ _ h
        · rename_i s2 hsc
          exact synced_loadFiller _ _ (synced_foldl_add _ _
            (synced_set_container_volume _ _ _ hsc (synced_purgeLoop _ _ _ h)))

lemma synced_applyOp (op : Op) (s s' : State)
    (hs : applyOp op s = some s') (h : Synced s) : Synced s' := by
  cases op with
  | add v =>
    simp only [applyOp] at hs
    split at hs
    · injection hs with hs2; subst hs2; exact synced_add_ingredient v s h
    · exact Option.noConfusion hs
  | remove p =>
    simp only [applyOp] at hs
    cases hp : s.entries[p]? with
    | none => rw [hp] at hs; exact Option.noConfusion hs
    | some e =>
      rw [hp] at hs
      injection hs with hs2
      subst hs2
      exact synced_remove_ingredient e s h
  | edit p v =>
    simp only [applyOp] at hs
    exact synced_editVolume p v s s' hs h
  | setCap c =>
    simp only [applyOp] at hs
    cases hc : set_container_volume c s with
    | error e => rw [hc] at hs; exact Option.noConfusion hs
    | ok s2 =>
      rw [hc] at hs
      injection hs with hs2
      subst hs2
      exact synced_set_container_volume c s _ hc h
  | toggle p =>
    simp only [applyOp] at hs
    split at hs
    · injection hs with hs2; subst hs2; exact synced_toggle_fill p s h
    · exact Option.noConfusion hs
  | load d =>
    simp only [applyOp] at hs
    injection hs with hs2
    subst hs2
    exact synced_load d s h

end Fludo

namespace Fludo

/-- The unclamped filler derivation: whenever a row's fill flag is set, its
volume is `int((container - sum(others)) * 10) / 10`, the value the fill
trace writes (mixer.py lines 773-777). -/
def FillerInv (s : State) : Prop :=
  ∀ (k : ℕ) (e : Entry), s.entries[k]? = some e → e.fill_set = true →
    e.ml = trunc1 (s.container_vol - (mlSum s.entries - e.ml))

lemma getElem?_append_cons {α : Type} :
    ∀ (l1 : List α) (a : α) (l2 : List α),
      (l1 ++ a :: l2)[l1.length]? = some a := by
  intro l1
  induction l1 with
  | nil => intro a l2; simp
  | cons b t ih => intro a l2; simpa using ih a l2

lemma entries_update (skip : Option ℕ) (s : State) :
    (update skip s).entries =
      updGo s.container_vol (s.container_vol - nonFillerSum s.entries) skip
        [] s.entries := rfl

lemma fillerInv_update (skip : Option ℕ) (s : State)
    (hsy : Synced s) (ham : AtMostOneFiller s) :
    FillerInv (update skip s) := by
  intro k e' hk hf
  have hflag : (flags s)[k]? = some true := by
    have h1 : (flags (update skip s))[k]? = some true := by
      unfold flags
      rw [List.getElem?_map, hk]
      simp [hf]
    rw [flags_update] at h1
    exact h1
  obtain ⟨e, hke, hfe⟩ :
      ∃ e, s.entries[k]? = some e ∧ e.fill_set = true := by
    unfold flags at hflag
    rw [List.getElem?_map] at hflag
    cases hke : s.entries[k]? with
    | none => rw [hke] at hflag; exact Option.noConfusion hflag
    | some e =>
      rw [hke] at hflag
      exact ⟨e, rfl, by simpa using hflag⟩
  have hklen : k < s.entries.length := lt_length_of_getElem? _ _ _ hke
  have htr : e.traceOn = true := by
    have h2 : (traces s)[k]? = some true := by rw [hsy]; exact hflag
    unfold traces at h2
    rw [List.getElem?_map, hke] at h2
    simpa using h2
  have honly : ∀ (j : ℕ) (ej : Entry), s.entries[j]? = some ej → j ≠ k →
      ej.traceOn = false := by
    intro j ej hje hjk
    by_contra hc
    have hcb : ej.traceOn = true := by revert hc; cases ej.traceOn <;> simp
    have hjt : (traces s)[j]? = some true := by
      unfold traces
      rw [List.getElem?_map, hje]
      simp [hcb]
    rw [hsy] at hjt
    exact hjk (eq_of_count_le_one (flags s) ham j k hjt hflag)
  have hgetk : s.entries[k] = e := by
    rw [List.getElem?_eq_getElem hklen] at hke
    injection hke with h3
  have hdec : s.entries = s.entries.take k ++ e :: s.entries.drop (k + 1) := by
    have h3 := List.take_append_drop k s.entries
    rw [List.drop_eq_getElem_cons hklen, hgetk] at h3
    exact h3.symm
  have ht1 : ∀ x ∈ s.entries.take k, x.traceOn = false := by
    intro x hx
    rcases getElem?_of_mem _ _ hx with ⟨j, hj⟩
    rw [List.getElem?_take] at hj
    by_cases hlt : j < k
    · rw [if_pos hlt] at hj
      exact honly j x hj (by omega)
    · rw [if_neg hlt] at hj
      exact absurd hj (by simp)
  have ht2 : ∀ x ∈ s.entries.drop (k + 1), x.traceOn = false := by
    intro x hx
    rcases getElem?_of_mem _ _ hx with ⟨j, hj⟩
    rw [List.getElem?_drop] at hj
    exact honly (k + 1 + j) x hj (by omega)
  have hlen1 : (s.entries.take k).length = k :=
    List.length_take_of_le (le_of_lt hklen)
  have hml := map_ml_updGo_single s.container_vol
    (s.container_vol - nonFillerSum s.entries) skip
    (s.entries.take k) e (s.entries.drop (k + 1)) [] ht1 ht2 htr
  rw [← hdec] at hml
  have h5 : ((update skip s).entries.map Entry.ml)[k]? = some e'.ml := by
    rw [List.getElem?_map, hk]
    rfl
  rw [entries_update, hml] at h5
  simp only [List.map_nil, List.nil_append] at h5
  have h6 : ((s.entries.take k).map Entry.ml ++
      (trunc1 (s.container_vol - (mlSum [] + mlSum (s.entries.take k) +
        mlSum (s.entries.drop (k + 1)))) ::
        (s.entries.drop (k + 1)).map Entry.ml))[k]? =
      some (trunc1 (s.container_vol - (mlSum [] + mlSum (s.entries.take k) +
        mlSum (s.entries.drop (k + 1))))) := by
    have h7 := getElem?_append_cons ((s.entries.take k).map Entry.ml)
      (trunc1 (s.container_vol - (mlSum [] + mlSum (s.entries.take k) +
        mlSum (s.entries.drop (k + 1)))))
      ((s.entries.drop (k + 1)).map Entry.ml)
    rw [List.length_map, hlen1] at h7
    exact h7
  rw [h6] at h5
  injection h5 with h5
  have hsum : mlSum (update skip s).entries =
      mlSum (s.entries.take k) +
        (trunc1 (s.container_vol - (mlSum [] + mlSum (s.entries.take k) +
          mlSum (s.entries.drop (k + 1)))) +
          mlSum (s.entries.drop (k + 1))) := by
    unfold mlSum
    rw [entries_update, hml]
    simp only [List.map_nil, List.nil_append, List.sum_append, List.sum_cons]
    simp [mlSum]
  have hcap : (update skip s).container_vol = s.container_vol := rfl
  rw [hcap, hsum, ← h5]
  congr 1
  rw [mlSum_nil]
  ring

/-! ### The filler derivation invariant across the public operations -/

/-- A quiescent, well-formed engine state: traces in sync with flags, at
most one filler, and the filler volume derived. -/
def GoodState (s : State) : Prop :=
  Synced s ∧ AtMostOneFiller s ∧ FillerInv s

lemma amof_toggleLoop_out (p : ℕ) (s : State) :
    AtMostOneFiller (toggleLoop p s 0 s.entries.length) := by
  rw [amof_iff]
  refine count_true_le_one_of_forall _ p (fun j hj hjl => ?_)
  refine flags_toggleLoop_ge p s.entries.length 0 s j (by omega) hj ?_ ?_
  · rw [flags, List.length_map, length_toggleLoop] at hjl
    exact hjl
  · rw [flags, List.length_map, length_toggleLoop] at hjl
    omega

lemma fi_toggle_fill (p : ℕ) (s : State) (hsy : Synced s) :
    FillerInv (toggle_fill p s) := by
  unfold toggle_fill
  exact fillerInv_update _ _ (synced_toggleLoop p _ 0 s hsy)
    (amof_toggleLoop_out p s)

lemma fi_add_ingredient (v : ℚ) (s : State) (hsy : Synced s)
    (ham : AtMostOneFiller s) : FillerInv (add_ingredient v s) := by
  unfold add_ingredient
  refine fillerInv_update none _ ?_ ?_
  · unfold Synced traces flags
    simp only [List.map_append]
    unfold Synced traces flags at hsy
    rw [hsy]
    simp
  · rw [amof_iff]
    unfold flags
    simp only [List.map_append, List.count_append]
    rw [amof_iff] at ham
    unfold flags at ham
    simpa using ham

lemma fi_editVolume (p : ℕ) (v : ℚ) (s s' : State)
    (hs : editVolume p v s = some s') (hsy : Synced s)
    (ham : AtMostOneFiller s) : FillerInv s' := by
  rcases editVolume_some p v s s' hs with ⟨e, _, _, _, _, rfl⟩
  refine fillerInv_update _ _ (synced_modifyEntry_ml p v s hsy) ?_
  rw [amof_iff,
    flags_modifyEntry_eq p (fun en => { en with ml := v }) s (fun a => rfl)]
  exact ham

lemma fi_remove_ingredient (x : Entry) (s : State) (hsy : Synced s)
    (ham : AtMostOneFiller s) : FillerInv (remove_ingredient x s) := by
  unfold remove_ingredient
  split
  · refine fillerInv_update none _ ?_ ?_
    · exact map_eq_map_eraseP _ _ _ _ (synced_toggle_fill _ s hsy)
    · rw [amof_iff]
      exact amof_eraseP _ _ (amof_toggle_fill _ s)
  · refine fillerInv_update none _ ?_ ?_
    · exact map_eq_map_eraseP _ _ _ _ hsy
    · rw [amof_iff]
      exact amof_eraseP _ _ ham

lemma fi_set_container_volume (c : ℚ) (s s' : State)
    (hs : set_container_volume c s = Except.ok s') (hsy : Synced s)
    (ham : AtMostOneFiller s) : FillerInv s' := by
  rcases set_container_volume_ok c s s' hs with ⟨_, _, rfl⟩
  refine fillerInv_update none _ ?_ ?_
  · show (s.entries.map (rescaleEntry (c / s.container_vol))).map
        Entry.traceOn =
      (s.entries.map (rescaleEntry (c / s.container_vol))).map Entry.fill_set
    rw [traces_map_entries (rescaleEntry (c / s.container_vol)) s
      (fun e => rfl)]
    rw [flags_map_entries (rescaleEntry (c / s.container_vol)) s
      (fun e => rfl)]
    exact hsy
  · rw [amof_iff]
    show ((s.entries.map (rescaleEntry (c / s.container_vol))).map
      Entry.fill_set).count true ≤ 1
    rw [flags_map_entries (rescaleEntry (c / s.container_vol)) s
      (fun e => rfl)]
    exact ham

lemma good_remove_ingredient (x : Entry) (s : State) (h : GoodState s) :
    GoodState (remove_ingredient x s) :=
  ⟨synced_remove_ingredient x s h.1, amof_remove_ingredient x s h.2.1,
    fi_remove_ingredient x s h.1 h.2.1⟩

lemma good_purgeLoop :
    ∀ (fuel k : ℕ) (s : State), GoodState s →
      GoodState (purgeLoop s k fuel) := by
  intro fuel
  induction fuel with
  | zero => intro k s h; exact h
  | succ fuel ih =>
    intro k s h
    rw [purgeLoop]
    cases hk : s.entries[k]? with
    | none => exact h
    | some e => exact ih _ _ (good_remove_ingredient e s h)

lemma good_add_ingredient (v : ℚ) (s : State) (h : GoodState s) :
    GoodState (add_ingredient v s) :=
  ⟨synced_add_ingredient v s h.1, amof_add_ingredient v s h.2.1,
    fi_add_ingredient v s h.1 h.2.1⟩

lemma good_foldl_add :
    ∀ (l : List ℚ) (s : State), GoodState s →
      GoodState (l.foldl (fun st v => add_ingredient v st) s) := by
  intro l
  induction l with
  | nil => intro s h; exact h
  | cons v t ih => intro s h; exact ih _ (good_add_ingredient v s h)

lemma good_toggle_fill (p : ℕ) (s : State) (hsy : Synced s) :
    GoodState (toggle_fill p s) :=
  ⟨synced_toggle_fill p s hsy, amof_toggle_fill p s, fi_toggle_fill p s hsy⟩

lemma good_loadRename (d : Snapshot) (s : State) (h : GoodState s) :
    GoodState (loadRename d s).1 := by
  unfold loadRename
  split
  · exact h
  · rename_i s5 hr
    have hsy : Synced s5 := synced_rename _ _ _ hr h.1
    have ham : AtMostOneFiller s5 := amof_rename _ _ _ hr h.2.1
    exact ⟨synced_update _ _ hsy, amof_update _ _ ham,
      fillerInv_update _ _ hsy ham⟩

lemma good_loadFiller (d : Snapshot) (s : State) (h : GoodState s) :
    GoodState (loadFiller d s).1 := by
  unfold loadFiller
  split
  · exact good_loadRename d s h
  · split
    · exact h
    · exact good_loadRename d _ (good_toggle_fill _ s h.1)

lemma good_set_container_volume (c : ℚ) (s s' : State)
    (hs : set_container_volume c s = Except.ok s') (h : GoodState s) :
    GoodState s' :=
  ⟨synced_set_container_volume c s s' hs h.1,
    amof_set_container_volume c s s' hs h.2.1,
    fi_set_container_volume c s s' hs h.1 h.2.1⟩

lemma good_load (d : Option Snapshot) (s : State) (h : GoodState s) :
    GoodState (load d s).1 := by
  cases d with
  | none => exact h
  | some d =>
    unfold load
    split
    · exact h
    · split_ifs with h1 h2 h3 h4
      · exact h
      · exact h
      · exact h
      · exact h
      · split
        · exact good_purgeLoop _ _ _ h
        · rename_i s2 hsc
          exact good_loadFiller _ _ (good_foldl_add _ _
            (good_set_container_volume _ _ _ hsc (good_purgeLoop _ _ _ h)))

lemma good_applyOp (op : Op) (s s' : State)
    (hs : applyOp op s = some s') (h : GoodState s) : GoodState s' := by
  cases op with
  | add v =>
    simp only [applyOp] at hs
    split at hs
    · injection hs with hs2; subst hs2; exact good_add_ingredient v s h
    · exact Option.noConfusion hs
  | remove p =>
    simp only [applyOp] at hs
    cases hp : s.entries[p]? with
    | none => rw [hp] at hs; exact Option.noConfusion hs
    | some e =>
      rw [hp] at hs
      injection hs with hs2
      subst hs2
      exact good_remove_ingredient e s h
  | edit p v =>
    simp only [applyOp] at hs
    exact ⟨synced_editVolume p v s s' hs h.1,
      amof_editVolume p v s s' hs h.2.1,
      fi_editVolume p v s s' hs h.1 h.2.1⟩
  | setCap c =>
    simp only [applyOp] at hs
    cases hc : set_container_volume c s with
    | error e => rw [hc] at hs; exact Option.noConfusion hs
    | ok s2 =>
      rw [hc] at hs
      injection hs with hs2
      subst hs2
      exact good_set_container_volume c s _ hc h
  | toggle p =>
    simp only [applyOp] at hs
    split at hs
    · injection hs with hs2; subst hs2; exact good_toggle_fill p s h.1
    · exact Option.noConfusion hs
  | load d =>
    simp only [applyOp] at hs
    injection hs with hs2
    subst hs2
    exact good_load d s h

lemma reachable_goodState : ∀ s : State, Reachable s → GoodState s := by
  intro s h
  induction h with
  | init =>
    refine ⟨rfl, ?_, ?_⟩
    · rw [amof_iff]; simp [flags, initState]
    · intro k e hk _
      simp [initState] at hk
  | step op hr hop ih => exact good_applyOp op _ _ hop ih

/-- C1 (amended): in every reachable state — hence after every completed
public operation — a row whose fill flag is set holds exactly the unclamped
derived volume `int((container - sum(others)) * 10) / 10`; there is no
`max(0, ...)`, so this value is negative whenever the other rows exceed the
container by 0.1 or more. -/
theorem c1_filler_derivation :
    ∀ s : State, Reachable s → FillerInv s :=
  fun s h => (reachable_goodState s h).2.2

/-- Witness for the amended C1 at the reachable state `cxD`: its filler row
(position 1, volume 80) satisfies the unclamped derivation. -/
theorem c1_filler_derivation_witness : FillerInv cxD :=
  c1_filler_derivation cxD reach_cxD

end Fludo

namespace Fludo

/-- C8: after a recompute pass `update(skip)`, every row other than the
skipped one displays: the empty label if it is the filler; the Full sentinel
if the free volume is below 0.1; and otherwise the numeric bound
`round1(volume + freeVolume)`, where `freeVolume` is the container volume
minus the sum of the non-filler volumes. -/
theorem c8_recompute_bounds (s : State) (skip : Option ℕ) (k : ℕ) (e : Entry)
    (hk : s.entries[k]? = some e) (hskip : skip ≠ some k) :
    ∃ e', (update skip s).entries[k]? = some e' ∧
      e'.mlMax = (if e.fill_set then Label.empty
                  else if s.container_vol - nonFillerSum s.entries < 1/10 then
                    Label.full
                  else Label.num (trunc1 (e.ml +
                    (s.container_vol - nonFillerSum s.entries)))) := by
  have h := getElem?_updGo s.container_vol
    (s.container_vol - nonFillerSum s.entries) skip s.entries [] k e hk
  simp only [List.length_nil, Nat.zero_add] at h
  rcases h with ⟨e', h1, _, _, _, h5, _⟩
  rw [if_neg hskip] at h5
  exact ⟨e', by rw [entries_update]; exact h1, h5⟩

/-- The first row of `volAB` before the recompute triggered by the second
add: volume 30 with the bound already at 80. -/
def volABe0 : Entry :=
  { eid := 0, ml := 30, liquidMl := 30, scaleTo := 80,
    mlMax := Label.num 80, fill_set := false, traceOn := false }

/-- Witness for C8, spec scenario A: at capacity 100 with volumes 30 and 20,
the free volume is 50 and the first row's recomputed bound label shows
80.0. -/
theorem c8_recompute_bounds_witness :
    ∃ e', (update none volAB).entries[0]? = some e' ∧
      e'.mlMax = Label.num 80 :=
  (c8_recompute_bounds volAB none 0 volABe0
      (by with_unfolding_all decide) (by decide)).imp
    (fun e' h => ⟨h.1, h.2.trans (by with_unfolding_all decide)⟩)

/-- C4: a successful capacity change multiplies every non-filler volume by
`newCapacity / oldCapacity` and truncates to one decimal, and the filler row
is not independently rescaled but ends at its re-derived value (the final
recompute overwrites whatever the rescale loop wrote into it). -/
theorem c4_capacity_rescale (c : ℚ) (s s' : State)
    (hsy : Synced s) (ham : AtMostOneFiller s)
    (hs : set_container_volume c s = Except.ok s') :
    s'.container_vol = c ∧
    (∀ (k : ℕ) (e e' : Entry), s.entries[k]? = some e →
      s'.entries[k]? = some e' → e.fill_set = false →
      e'.ml = round_digits1 (e.ml * (c / s.container_vol))) ∧
    FillerInv s' := by
  have hfi : FillerInv s' := fi_set_container_volume c s s' hs hsy ham
  rcases set_container_volume_ok c s s' hs with ⟨hc1, hc2, rfl⟩
  refine ⟨rfl, ?_, hfi⟩
  intro k e e' hk hk' hnf
  have hkt : (rescaledState c s).entries[k]? =
      some (rescaleEntry (c / s.container_vol) e) := by
    show (s.entries.map (rescaleEntry (c / s.container_vol)))[k]? = _
    rw [List.getElem?_map, hk]
    rfl
  have htr : e.traceOn = false := by
    have h1 : (traces s)[k]? = (flags s)[k]? := by rw [hsy]
    unfold traces flags at h1
    rw [List.getElem?_map, List.getElem?_map, hk] at h1
    simp at h1
    rw [h1, hnf]
  have h := getElem?_updGo (rescaledState c s).container_vol
    ((rescaledState c s).container_vol -
      nonFillerSum (rescaledState c s).entries)
    none (rescaledState c s).entries
    [] k (rescaleEntry (c / s.container_vol) e) hkt
  simp only [List.length_nil, Nat.zero_add] at h
  rcases h with ⟨e2, h1, _, _, _, _, hml⟩
  rw [entries_update] at hk'
  rw [hk'] at h1
  injection h1 with h1
  subst h1
  exact hml htr

/-- The mixer after spec scenario C: `volAB` resized to 200 ml. -/
def c4res : State :=
  ((set_container_volume 200 volAB).toOption).getD initState

/-- Witness for C4, spec scenario C: resizing the 100 ml container holding
volumes 30 and 20 to 200 ml yields volumes 60.0 and 40.0. -/
theorem c4_capacity_rescale_witness :
    (c4res.container_vol = 200 ∧
      (∀ (k : ℕ) (e e' : Entry), volAB.entries[k]? = some e →
        c4res.entries[k]? = some e' → e.fill_set = false →
        e'.ml = round_digits1 (e.ml * (200 / volAB.container_vol))) ∧
      FillerInv c4res) ∧
    c4res.entries.map Entry.ml = [60, 40] :=
  ⟨c4_capacity_rescale 200 volAB c4res (by with_unfolding_all rfl)
      (by rw [amof_iff]; with_unfolding_all decide)
      (by with_unfolding_all rfl),
    by with_unfolding_all decide⟩

end Fludo

namespace Fludo

/-! ### Characterisation of load failures -/

lemma purge_init : purge initState = initState := rfl

lemma length_add_ingredient (v : ℚ) (s : State) :
    (add_ingredient v s).entries.length = s.entries.length + 1 := by
  unfold add_ingredient
  rw [length_update]
  simp

lemma length_foldl_add :
    ∀ (l : List ℚ) (s : State),
      ((l.foldl (fun st v => add_ingredient v st) s).entries.length) =
        s.entries.length + l.length := by
  intro l
  induction l with
  | nil => intro s; rfl
  | cons v t ih =>
    intro s
    rw [List.foldl_cons, ih, length_add_ingredient, List.length_cons]
    omega

lemma loadRename_err_iff (d : Snapshot) (s : State) :
    (loadRename d s).2.isSome = true ↔
      30 ≤ (d.name.getD defaultMixtureName).length := by
  unfold loadRename rename
  by_cases h : (d.name.getD defaultMixtureName).length < 30
  · rw [if_pos h]
    simp
    omega
  · rw [if_neg h]
    simp
    omega

lemma loadFiller_err_iff (d : Snapshot) (s : State) :
    (loadFiller d s).2.isSome = true ↔
      ((∃ i, d.filler_idx = some i ∧ pyIndex s.entries.length i = none) ∨
        30 ≤ (d.name.getD defaultMixtureName).length) := by
  unfold loadFiller
  split
  · rename_i hf
    rw [loadRename_err_iff]
    simp [hf]
  · rename_i i hf
    split
    · rename_i hpi
      refine iff_of_true rfl (Or.inl ⟨i, hf, hpi⟩)
    · rename_i p hpi
      rw [loadRename_err_iff]
      constructor
      · intro h; exact Or.inr h
      · intro h
        rcases h with ⟨j, hj, hpj⟩ | h
        · rw [hf] at hj
          injection hj with hj
          subst hj
          rw [hpi] at hpj
          exact Option.noConfusion hpj
        · exact h

/-- C9 (amended): loading a snapshot into the empty mixer fails if and only
if the ingredients' total exceeds the snapshot capacity, or the capacity is
outside [10, 10000], or more than 20 ingredients are given, or `filler_idx`
is non-null and out of range under Python indexing (negative indexes within
`[-count, 0)` wrap and succeed), or the effective name — the given one, else
the default — is 30 characters or longer.  Only the first four checks run
before any mutation. -/
theorem c9_load_failure_iff :
    ∀ d : Snapshot, (load (some d) initState).2.isSome = true ↔
      (d.container_vol < d.ingredients.sum ∨
       d.container_vol < 10 ∨ 10000 < d.container_vol ∨
       20 < d.ingredients.length ∨
       (∃ i, d.filler_idx = some i ∧
         pyIndex d.ingredients.length i = none) ∨
       30 ≤ (d.name.getD defaultMixtureName).length) := by
  intro d
  simp only [load]
  split_ifs with h1 h2 h3 h4
  · exact iff_of_true rfl (Or.inl h1)
  · exact iff_of_true rfl (Or.inr (Or.inl h2))
  · exact iff_of_true rfl (Or.inr (Or.inr (Or.inl h3)))
  · exact iff_of_true rfl (Or.inr (Or.inr (Or.inr (Or.inl h4))))
  · rw [purge_init]
    have hsc : set_container_volume d.container_vol initState =
        Except.ok (update none (rescaledState d.container_vol initState)) := by
      unfold set_container_volume
      rw [if_neg h3, if_neg h2]
    rw [hsc]
    have hu : (update none
        (rescaledState d.container_vol initState)).entries = [] := rfl
    rw [show (match Except.ok (update none
          (rescaledState d.container_vol initState)) with
        | Except.error e => (purge initState, some e)
        | Except.ok s2 => loadFiller d
            (d.ingredients.foldl (fun st v => add_ingredient v st) s2)) =
        loadFiller d (d.ingredients.foldl (fun st v => add_ingredient v st)
          (update none (rescaledState d.container_vol initState))) from rfl]
    rw [loadFiller_err_iff]
    rw [show (d.ingredients.foldl (fun st v => add_ingredient v st)
        (update none
          (rescaledState d.container_vol initState))).entries.length =
        d.ingredients.length from by rw [length_foldl_add, hu]; simp]
    constructor
    · intro h
      rcases h with h | h
      · exact Or.inr (Or.inr (Or.inr (Or.inr (Or.inl h))))
      · exact Or.inr (Or.inr (Or.inr (Or.inr (Or.inr h))))
    · intro h
      rcases h with h | h | h | h | h | h
      · exact absurd h h1
      · exact absurd h h2
      · exact absurd h h3
      · exact absurd h h4
      · exact Or.inl h
      · exact Or.inr h

end Fludo

namespace Fludo

/-! ### Volume tracking through the toggle loop -/

lemma set_getElem?_self {α : Type} :
    ∀ (l : List α) (p : ℕ) (a : α), l[p]? = some a → l.set p a = l := by
  intro l
  induction l with
  | nil => intro p a h; simp at h
  | cons b t ih =>
    intro p a h
    match p with
    | 0 => simp at h; rw [h]; rfl
    | p + 1 =>
      simp only [List.getElem?_cons_succ] at h
      rw [List.set_cons_succ, ih p a h]

lemma sum_set_of_getElem? :
    ∀ (l : List ℚ) (p : ℕ) (a b : ℚ), l[p]? = some a →
      (l.set p b).sum = l.sum - a + b := by
  intro l
  induction l with
  | nil => intro p a b h; simp at h
  | cons c t ih =>
    intro p a b h
    match p with
    | 0 =>
      simp at h
      rw [List.set_cons_zero, List.sum_cons, List.sum_cons, h]
      ring
    | p + 1 =>
      simp only [List.getElem?_cons_succ] at h
      rw [List.set_cons_succ, List.sum_cons, List.sum_cons, ih p a b h]
      ring

lemma set_length_append {α : Type} :
    ∀ (l1 : List α) (a : α) (l2 : List α) (b : α),
      (l1 ++ a :: l2).set l1.length b = l1 ++ b :: l2 := by
  intro l1
  induction l1 with
  | nil => intro a l2 b; rfl
  | cons c t ih =>
    intro a l2 b
    simp only [List.cons_append, List.length_cons, List.set_cons_succ]
    rw [ih]

lemma mls_update_single (skip : Option ℕ) (s : State) (p : ℕ) (e : Entry)
    (hp : s.entries[p]? = some e) (htr : e.traceOn = true)
    (hothers : ∀ (j : ℕ) (ej : Entry), s.entries[j]? = some ej → j ≠ p →
      ej.traceOn = false) :
    mls (update skip s) = (mls s).set p
      (trunc1 (s.container_vol - (mlSum s.entries - e.ml))) := by
  have hplen : p < s.entries.length := lt_length_of_getElem? _ _ _ hp
  have hgetp : s.entries[p] = e := by
    rw [List.getElem?_eq_getElem hplen] at hp
    injection hp with h3
  have hdec : s.entries = s.entries.take p ++ e :: s.entries.drop (p + 1) := by
    have h3 := List.take_append_drop p s.entries
    rw [List.drop_eq_getElem_cons hplen, hgetp] at h3
    exact h3.symm
  have ht1 : ∀ x ∈ s.entries.take p, x.traceOn = false := by
    intro x hx
    rcases getElem?_of_mem _ _ hx with ⟨j, hj⟩
    rw [List.getElem?_take] at hj
    by_cases hlt : j < p
    · rw [if_pos hlt] at hj
      exact hothers j x hj (by omega)
    · rw [if_neg hlt] at hj
      exact absurd hj (by simp)
  have ht2 : ∀ x ∈ s.entries.drop (p + 1), x.traceOn = false := by
    intro x hx
    rcases getElem?_of_mem _ _ hx with ⟨j, hj⟩
    rw [List.getElem?_drop] at hj
    exact hothers (p + 1 + j) x hj (by omega)
  have hlen1 : (s.entries.take p).length = p :=
    List.length_take_of_le (le_of_lt hplen)
  have hml := map_ml_updGo_single s.container_vol
    (s.container_vol - nonFillerSum s.entries) skip
    (s.entries.take p) e (s.entries.drop (p + 1)) [] ht1 ht2 htr
  rw [← hdec] at hml
  have hmls : mls s = (s.entries.take p).map Entry.ml ++
      e.ml :: (s.entries.drop (p + 1)).map Entry.ml := by
    unfold mls
    conv_lhs => rw [hdec]
    simp
  have hsum : mlSum s.entries =
      mlSum (s.entries.take p) + e.ml + mlSum (s.entries.drop (p + 1)) := by
    conv_lhs => rw [hdec]
    rw [mlSum_append, mlSum_cons]
    ring
  rw [show mls (update skip s) = List.map Entry.ml
      (updGo s.container_vol (s.container_vol - nonFillerSum s.entries)
        skip [] s.entries) from by unfold mls; rw [entries_update]]
  rw [hml, hmls]
  have hset := set_length_append ((s.entries.take p).map Entry.ml) e.ml
    ((s.entries.drop (p + 1)).map Entry.ml)
    (trunc1 (s.container_vol - (mlSum s.entries - e.ml)))
  rw [List.length_map, hlen1] at hset
  rw [hset]
  simp only [List.map_nil, List.nil_append]
  congr 2
  rw [hsum, mlSum_nil]
  ring_nf

lemma mlSum_eq_sum_mls (s : State) : mlSum s.entries = (mls s).sum := rfl

lemma container_toggleLoop (p : ℕ) :
    ∀ (fuel k : ℕ) (s : State),
      (toggleLoop p s k fuel).container_vol = s.container_vol := by
  intro fuel
  induction fuel with
  | zero => intro k s; rfl
  | succ fuel ih =>
    intro k s
    rw [toggleLoop]
    cases hk : s.entries[k]? with
    | none => rfl
    | some e =>
      simp only []
      split
      · split
        · rw [ih]; rfl
        · rw [ih]; rfl
      · rw [ih]; rfl

lemma length_toggle_fill (p : ℕ) (s : State) :
    (toggle_fill p s).entries.length = s.entries.length := by
  unfold toggle_fill
  rw [length_update, length_toggleLoop]

lemma container_toggle_fill (p : ℕ) (s : State) :
    (toggle_fill p s).container_vol = s.container_vol := by
  unfold toggle_fill
  rw [container_update, container_toggleLoop]

end Fludo

namespace Fludo

/-- No row is the filler and no fill trace is installed. -/
def NoFill (s : State) : Prop :=
  ∀ x ∈ s.entries, x.fill_set = false ∧ x.traceOn = false

/-- Exactly the row at `p` carries the fill flag and the fill trace. -/
def OnlyAt (p : ℕ) (s : State) : Prop :=
  (∀ (j : ℕ) (ej : Entry), s.entries[j]? = some ej → j ≠ p →
    ej.fill_set = false ∧ ej.traceOn = false) ∧
  (∀ ej : Entry, s.entries[p]? = some ej →
    ej.fill_set = true ∧ ej.traceOn = true)

/-- The row at `p` already holds its derived volume, so re-derivation fixes
it. -/
def StableAt (p : ℕ) (s : State) : Prop :=
  ∀ ej : Entry, s.entries[p]? = some ej →
    ej.ml = trunc1 (s.container_vol - (mlSum s.entries - ej.ml))

lemma exists_getElem?_of_lt {α : Type} (l : List α) (p : ℕ)
    (h : p < l.length) : ∃ a, l[p]? = some a :=
  ⟨l[p], List.getElem?_eq_getElem h⟩

lemma fields_of_getElem? (s : State) (j : ℕ) (ej : Entry)
    (h : s.entries[j]? = some ej) :
    (flags s)[j]? = some ej.fill_set ∧ (traces s)[j]? = some ej.traceOn ∧
      (mls s)[j]? = some ej.ml := by
  unfold flags traces mls
  rw [List.getElem?_map, List.getElem?_map, List.getElem?_map, h]
  exact ⟨rfl, rfl, rfl⟩

lemma getElem?_modifyEntry_ne (p : ℕ) (f : Entry → Entry) (s : State)
    (j : ℕ) (h : j ≠ p) :
    (modifyEntry p f s).entries[j]? = s.entries[j]? :=
  getElem?_listModify_ne f s.entries p j h

lemma getElem?_modifyEntry_self (p : ℕ) (f : Entry → Entry) (s : State) :
    (modifyEntry p f s).entries[p]? = (s.entries[p]?).map f :=
  getElem?_listModify_self f s.entries p

lemma nofill_modifyEntry (p : ℕ) (f : Entry → Entry) (s : State)
    (h : NoFill s)
    (hf : ∀ a : Entry, (a.fill_set = false ∧ a.traceOn = false) →
      ((f a).fill_set = false ∧ (f a).traceOn = false)) :
    NoFill (modifyEntry p f s) := by
  intro x hx
  exact forall_mem_listModify f _ hf s.entries p h x hx

lemma nofill_update (skip : Option ℕ) (s : State) (h : NoFill s) :
    NoFill (update skip s) := by
  intro x hx
  refine forall_mem_updGo _ _ skip _ ?_ s.entries [] (by simp) h x hx
  intro e q1 q2 l m he
  exact he

lemma untraced_of_nofill (s : State) (h : NoFill s) :
    ∀ x ∈ s.entries, x.traceOn = false :=
  fun x hx => (h x hx).2

lemma unset_fill_nofill (k : ℕ) (s : State) (h : NoFill s) :
    NoFill (unset_fill k s) ∧ mls (unset_fill k s) = mls s := by
  rw [unset_fill_eq]
  have h1 : NoFill (modifyEntry k (fun e => { e with traceOn := false }) s) :=
    nofill_modifyEntry k _ s h (fun a ha => ⟨ha.1, rfl⟩)
  have h2 : NoFill (update (some k)
      (modifyEntry k (fun e => { e with traceOn := false }) s)) :=
    nofill_update _ _ h1
  refine ⟨nofill_modifyEntry k _ _ h2 (fun a ha => ⟨rfl, ha.2⟩), ?_⟩
  rw [mls_modifyEntry_eq k (fun e => { e with fill_set := false }) _
      (fun a => rfl),
    mls_update_untraced _ _ (untraced_of_nofill _ h1),
    mls_modifyEntry_eq k (fun e => { e with traceOn := false }) s
      (fun a => rfl)]

lemma set_fill_from_nofill (p : ℕ) (s : State) (e : Entry)
    (h : NoFill s) (hp : s.entries[p]? = some e) :
    OnlyAt p (set_fill p s) ∧ StableAt p (set_fill p s) ∧
      mls (set_fill p s) = (mls s).set p
        (trunc1 (s.container_vol - (mlSum s.entries - e.ml))) := by
  have hplen : p < s.entries.length := lt_length_of_getElem? _ _ _ hp
  rw [set_fill_eq]
  have hp1 : (modifyEntry p (fun e => { e with traceOn := true })
      s).entries[p]? = some { e with traceOn := true } := by
    rw [getElem?_modifyEntry_self, hp]
    rfl
  have hothers1 : ∀ (j : ℕ) (ej : Entry),
      (modifyEntry p (fun e => { e with traceOn := true })
        s).entries[j]? = some ej → j ≠ p → ej.traceOn = false := by
    intro j ej hj hjp
    rw [getElem?_modifyEntry_ne p _ s j hjp] at hj
    exact (h ej (mem_of_getElem? _ _ _ hj)).2
  have hmls2 := mls_update_single (some p)
    (modifyEntry p (fun e => { e with traceOn := true }) s) p
    { e with traceOn := true } hp1 rfl hothers1
  rw [show ({ e with traceOn := true } : Entry).ml = e.ml from rfl] at hmls2
  have hmlsmod : mls (modifyEntry p (fun e => { e with traceOn := true }) s) =
      mls s := mls_modifyEntry_eq p (fun e => { e with traceOn := true }) s
        (fun a => rfl)
  have hsummod : mlSum (modifyEntry p
      (fun e => { e with traceOn := true }) s).entries = mlSum s.entries := by
    rw [mlSum_eq_sum_mls, mlSum_eq_sum_mls, hmlsmod]
  rw [hmlsmod, hsummod] at hmls2
  have hcapmod : (modifyEntry p (fun e => { e with traceOn := true })
      s).container_vol = s.container_vol := rfl
  rw [hcapmod] at hmls2
  -- facts about the state after the inner update
  have hlen2 : (update (some p)
      (modifyEntry p (fun e => { e with traceOn := true }) s)).entries.length =
      s.entries.length := by
    rw [length_update, length_modifyEntry]
  obtain ⟨e2, he2⟩ := exists_getElem?_of_lt (update (some p)
      (modifyEntry p (fun e => { e with traceOn := true }) s)).entries p
    (by omega)
  have htr2 : e2.traceOn = true := by
    have hf2 := (fields_of_getElem? _ p e2 he2).2.1
    rw [traces_update, traces_modifyEntry_const p _ s true (fun a => rfl)]
      at hf2
    rw [getElem?_set_self_of_lt (traces s) p true
      (by rw [traces, List.length_map]; omega)] at hf2
    injection hf2 with hf2
    exact hf2.symm
  have hml2 : e2.ml = trunc1 (s.container_vol -
      (mlSum s.entries - e.ml)) := by
    have hf2 := (fields_of_getElem? _ p e2 he2).2.2
    rw [hmls2] at hf2
    rw [getElem?_set_self_of_lt (mls s) p _
      (by rw [mls, List.length_map]; omega)] at hf2
    injection hf2 with hf2
    exact hf2.symm
  have hoth2 : ∀ (j : ℕ) (ej : Entry), (update (some p)
      (modifyEntry p (fun e => { e with traceOn := true })
        s)).entries[j]? = some ej → j ≠ p →
      ej.fill_set = false ∧ ej.traceOn = false := by
    intro j ej hj hjp
    have hfl := (fields_of_getElem? _ j ej hj).1
    have htr := (fields_of_getElem? _ j ej hj).2.1
    rw [flags_update,
      flags_modifyEntry_eq p (fun e => { e with traceOn := true }) s
        (fun a => rfl)] at hfl
    rw [traces_update, traces_modifyEntry_const p _ s true (fun a => rfl),
      List.getElem?_set_ne (fun hc => hjp hc.symm)] at htr
    have hjlen : j < s.entries.length := by
      have := lt_length_of_getElem? _ _ _ hj
      omega
    obtain ⟨ej0, hej0⟩ := exists_getElem?_of_lt s.entries j hjlen
    have h0 := h ej0 (mem_of_getElem? _ _ _ hej0)
    have hfl0 := (fields_of_getElem? s j ej0 hej0).1
    have htr0 := (fields_of_getElem? s j ej0 hej0).2.1
    rw [hfl0] at hfl
    rw [htr0] at htr
    injection hfl with hfl
    injection htr with htr
    exact ⟨hfl.symm.trans h0.1, htr.symm.trans h0.2⟩
  -- the outer flag write
  constructor
  · constructor
    · intro j ej hj hjp
      rw [getElem?_modifyEntry_ne p _ _ j hjp] at hj
      exact hoth2 j ej hj hjp
    · intro ej hj
      rw [getElem?_modifyEntry_self, he2] at hj
      injection hj with hj
      rw [← hj]
      exact ⟨rfl, htr2⟩
  constructor
  · intro ej hj
    rw [getElem?_modifyEntry_self, he2] at hj
    injection hj with hj
    have hmlfin : mls (modifyEntry p (fun e => { e with fill_set := true })
        (update (some p)
          (modifyEntry p (fun e => { e with traceOn := true }) s))) =
        (mls s).set p (trunc1 (s.container_vol -
          (mlSum s.entries - e.ml))) := by
      rw [mls_modifyEntry_eq p (fun e => { e with fill_set := true }) _
        (fun a => rfl), hmls2]
    have hsumfin : mlSum (modifyEntry p
        (fun e => { e with fill_set := true })
        (update (some p)
          (modifyEntry p (fun e => { e with traceOn := true })
            s))).entries =
        mlSum s.entries - e.ml +
          trunc1 (s.container_vol - (mlSum s.entries - e.ml)) := by
      rw [mlSum_eq_sum_mls, hmlfin,
        sum_set_of_getElem? (mls s) p e.ml _
          (fields_of_getElem? s p e hp).2.2]
      rw [← mlSum_eq_sum_mls]
    rw [← hj]
    show e2.ml = trunc1 (_ - (_ - e2.ml))
    rw [hml2, hsumfin]
    congr 2
    ring
  · rw [mls_modifyEntry_eq p (fun e => { e with fill_set := true }) _
      (fun a => rfl), hmls2]

end Fludo

namespace Fludo

lemma fill_eq_of_flags (t : State) (j : ℕ) (ej : Entry) (b : Bool)
    (hj : t.entries[j]? = some ej) (hb : (flags t)[j]? = some b) :
    ej.fill_set = b := by
  have h1 := (fields_of_getElem? t j ej hj).1
  rw [h1] at hb
  injection hb with hb

lemma trace_eq_of_traces (t : State) (j : ℕ) (ej : Entry) (b : Bool)
    (hj : t.entries[j]? = some ej) (hb : (traces t)[j]? = some b) :
    ej.traceOn = b := by
  have h1 := (fields_of_getElem? t j ej hj).2.1
  rw [h1] at hb
  injection hb with hb

lemma ml_eq_of_mls (t : State) (j : ℕ) (ej : Entry) (q : ℚ)
    (hj : t.entries[j]? = some ej) (hb : (mls t)[j]? = some q) :
    ej.ml = q := by
  have h1 := (fields_of_getElem? t j ej hj).2.2
  rw [h1] at hb
  injection hb with hb

lemma length_flags (s : State) : (flags s).length = s.entries.length := by
  rw [flags, List.length_map]

lemma length_traces (s : State) : (traces s).length = s.entries.length := by
  rw [traces, List.length_map]

lemma length_mls (s : State) : (mls s).length = s.entries.length := by
  rw [mls, List.length_map]

lemma unset_fill_other (k p : ℕ) (s : State) (hkp : k ≠ p)
    (ho : OnlyAt p s) (hst : StableAt p s) (hplen : p < s.entries.length) :
    OnlyAt p (unset_fill k s) ∧ StableAt p (unset_fill k s) ∧
      mls (unset_fill k s) = mls s := by
  obtain ⟨ep, hep⟩ := exists_getElem?_of_lt s.entries p hplen
  have hepf := ho.2 ep hep
  rw [unset_fill_eq]
  have hp1 : (modifyEntry k (fun e => { e with traceOn := false })
      s).entries[p]? = some ep := by
    rw [getElem?_modifyEntry_ne k _ s p (fun hc => hkp hc.symm)]
    exact hep
  have hothers1 : ∀ (j : ℕ) (ej : Entry),
      (modifyEntry k (fun e => { e with traceOn := false })
        s).entries[j]? = some ej → j ≠ p → ej.traceOn = false := by
    intro j ej hj hjp
    by_cases hjk : j = k
    · subst hjk
      rw [getElem?_modifyEntry_self] at hj
      cases hk : s.entries[j]? with
      | none => rw [hk] at hj; exact Option.noConfusion hj
      | some ek =>
        rw [hk] at hj
        injection hj with hj
        rw [← hj]
    · rw [getElem?_modifyEntry_ne k _ s j hjk] at hj
      exact (ho.1 j ej hj hjp).2
  have hmlsmod : mls (modifyEntry k (fun e => { e with traceOn := false })
      s) = mls s :=
    mls_modifyEntry_eq k (fun e => { e with traceOn := false }) s
      (fun a => rfl)
  have hsummod : mlSum (modifyEntry k
      (fun e => { e with traceOn := false }) s).entries = mlSum s.entries := by
    rw [mlSum_eq_sum_mls, mlSum_eq_sum_mls, hmlsmod]
  have hmls2 := mls_update_single (some k)
    (modifyEntry k (fun e => { e with traceOn := false }) s) p ep hp1
    hepf.2 hothers1
  rw [hmlsmod, hsummod,
    show (modifyEntry k (fun e => { e with traceOn := false })
      s).container_vol = s.container_vol from rfl] at hmls2
  have hstp : trunc1 (s.container_vol - (mlSum s.entries - ep.ml)) = ep.ml :=
    (hst ep hep).symm
  rw [hstp, set_getElem?_self (mls s) p ep.ml
    (fields_of_getElem? s p ep hep).2.2] at hmls2
  -- fields of the state after the inner update
  have hlen2 : (update (some k)
      (modifyEntry k (fun e => { e with traceOn := false })
        s)).entries.length = s.entries.length := by
    rw [length_update, length_modifyEntry]
  have hfl2 : flags (update (some k)
      (modifyEntry k (fun e => { e with traceOn := false }) s)) = flags s := by
    rw [flags_update,
      flags_modifyEntry_eq k (fun e => { e with traceOn := false }) s
        (fun a => rfl)]
  have htr2 : traces (update (some k)
      (modifyEntry k (fun e => { e with traceOn := false }) s)) =
      (traces s).set k false := by
    rw [traces_update,
      traces_modifyEntry_const k _ s false (fun a => rfl)]
  refine ⟨⟨?_, ?_⟩, ?_, ?_⟩
  · -- rows other than p in the final state
    intro j ej hj hjp
    by_cases hjk : j = k
    · subst hjk
      rw [getElem?_modifyEntry_self] at hj
      cases hk : (update (some j)
          (modifyEntry j (fun e => { e with traceOn := false })
            s)).entries[j]? with
      | none => rw [hk] at hj; exact Option.noConfusion hj
      | some e2 =>
        rw [hk] at hj
        injection hj with hj
        have hjlen : j < s.entries.length := by
          have := lt_length_of_getElem? _ _ _ hk
          omega
        have htre2 : e2.traceOn = false := by
          refine trace_eq_of_traces _ j e2 false hk ?_
          rw [htr2]
          exact getElem?_set_self_of_lt _ j false
            (by rw [length_traces]; omega)
        rw [← hj]
        exact ⟨rfl, htre2⟩
    · rw [getElem?_modifyEntry_ne k _ _ j hjk] at hj
      have hjlen : j < s.entries.length := by
        have := lt_length_of_getElem? _ _ _ hj
        omega
      obtain ⟨ej0, hej0⟩ := exists_getElem?_of_lt s.entries j hjlen
      have h0 := ho.1 j ej0 hej0 hjp
      constructor
      · refine fill_eq_of_flags _ j ej _ hj ?_
        rw [hfl2, (fields_of_getElem? s j ej0 hej0).1, h0.1]
      · refine trace_eq_of_traces _ j ej _ hj ?_
        rw [htr2, List.getElem?_set_ne (fun hc => hjk hc.symm),
          (fields_of_getElem? s j ej0 hej0).2.1, h0.2]
  · -- the row at p in the final state
    intro ej hj
    rw [getElem?_modifyEntry_ne k _ _ p (fun hc => hkp hc.symm)] at hj
    constructor
    · refine fill_eq_of_flags _ p ej _ hj ?_
      rw [hfl2, (fields_of_getElem? s p ep hep).1, hepf.1]
    · refine trace_eq_of_traces _ p ej _ hj ?_
      rw [htr2, List.getElem?_set_ne hkp,
        (fields_of_getElem? s p ep hep).2.1, hepf.2]
  · -- stability at p in the final state
    intro ej hj
    rw [getElem?_modifyEntry_ne k _ _ p (fun hc => hkp hc.symm)] at hj
    have hmlej : ej.ml = ep.ml := by
      refine ml_eq_of_mls _ p ej _ hj ?_
      rw [hmls2, (fields_of_getElem? s p ep hep).2.2]
    have hmlsfin : mls (modifyEntry k (fun e => { e with fill_set := false })
        (update (some k)
          (modifyEntry k (fun e => { e with traceOn := false }) s))) =
        mls s := by
      rw [mls_modifyEntry_eq k (fun e => { e with fill_set := false }) _
        (fun a => rfl), hmls2]
    have hsumfin : mlSum (modifyEntry k
        (fun e => { e with fill_set := false })
        (update (some k)
          (modifyEntry k (fun e => { e with traceOn := false })
            s))).entries = mlSum s.entries := by
      rw [mlSum_eq_sum_mls, hmlsfin, mlSum_eq_sum_mls]
    rw [hmlej, hsumfin,
      show (modifyEntry k (fun e => { e with fill_set := false })
        (update (some k)
          (modifyEntry k (fun e => { e with traceOn := false })
            s))).container_vol = s.container_vol from rfl]
    exact hst ep hep
  · rw [mls_modifyEntry_eq k (fun e => { e with fill_set := false }) _
      (fun a => rfl), hmls2]

lemma unset_fill_self (p : ℕ) (s : State) (ho : OnlyAt p s)
    (hplen : p < s.entries.length) :
    NoFill (unset_fill p s) ∧ mls (unset_fill p s) = mls s := by
  rw [unset_fill_eq]
  have huntr : ∀ x ∈ (modifyEntry p (fun e => { e with traceOn := false })
      s).entries, x.traceOn = false := by
    intro x hx
    rcases getElem?_of_mem _ _ hx with ⟨j, hj⟩
    by_cases hjp : j = p
    · subst hjp
      rw [getElem?_modifyEntry_self] at hj
      cases hk : s.entries[j]? with
      | none => rw [hk] at hj; exact Option.noConfusion hj
      | some ek =>
        rw [hk] at hj
        injection hj with hj
        rw [← hj]
    · rw [getElem?_modifyEntry_ne p _ s j hjp] at hj
      exact (ho.1 j x hj hjp).2
  have hfl2 : flags (update (some p)
      (modifyEntry p (fun e => { e with traceOn := false }) s)) = flags s := by
    rw [flags_update,
      flags_modifyEntry_eq p (fun e => { e with traceOn := false }) s
        (fun a => rfl)]
  have htr2 : traces (update (some p)
      (modifyEntry p (fun e => { e with traceOn := false }) s)) =
      (traces s).set p false := by
    rw [traces_update,
      traces_modifyEntry_const p _ s false (fun a => rfl)]
  constructor
  · intro x hx
    rcases getElem?_of_mem _ _ hx with ⟨j, hj⟩
    by_cases hjp : j = p
    · subst hjp
      rw [getElem?_modifyEntry_self] at hj
      cases hk : (update (some j)
          (modifyEntry j (fun e => { e with traceOn := false })
            s)).entries[j]? with
      | none => rw [hk] at hj; exact Option.noConfusion hj
      | some e2 =>
        rw [hk] at hj
        injection hj with hj
        have hjlen : j < s.entries.length := by
          have h1 := lt_length_of_getElem? _ _ _ hk
          rw [length_update, length_modifyEntry] at h1
          exact h1
        have htre2 : e2.traceOn = false := by
          refine trace_eq_of_traces _ j e2 false hk ?_
          rw [htr2]
          exact getElem?_set_self_of_lt _ j false
            (by rw [length_traces]; omega)
        rw [← hj]
        exact ⟨rfl, htre2⟩
    · rw [getElem?_modifyEntry_ne p _ _ j hjp] at hj
      have hjlen : j < s.entries.length := by
        have h1 := lt_length_of_getElem? _ _ _ hj
        rw [length_update, length_modifyEntry] at h1
        exact h1
      obtain ⟨ej0, hej0⟩ := exists_getElem?_of_lt s.entries j hjlen
      have h0 := ho.1 j ej0 hej0 hjp
      constructor
      · refine fill_eq_of_flags _ j x _ hj ?_
        rw [hfl2, (fields_of_getElem? s j ej0 hej0).1, h0.1]
      · refine trace_eq_of_traces _ j x _ hj ?_
        rw [htr2, List.getElem?_set_ne (fun hc => hjp hc.symm),
          (fields_of_getElem? s j ej0 hej0).2.1, h0.2]
  · rw [mls_modifyEntry_eq p (fun e => { e with fill_set := false }) _
      (fun a => rfl),
      mls_update_untraced _ _ huntr,
      mls_modifyEntry_eq p (fun e => { e with traceOn := false }) s
        (fun a => rfl)]

end Fludo

namespace Fludo

lemma length_eq_of_flags (t u : State) (hf : flags u = flags t) :
    u.entries.length = t.entries.length := by
  have h1 := length_flags u
  have h2 := length_flags t
  rw [hf] at h1
  omega

lemma onlyAt_transport (p : ℕ) (t u : State) (hf : flags u = flags t)
    (htr : traces u = traces t) (ho : OnlyAt p t) : OnlyAt p u := by
  have hlen := length_eq_of_flags t u hf
  constructor
  · intro j ej hj hjp
    have hjlen : j < t.entries.length := by
      have := lt_length_of_getElem? _ _ _ hj
      omega
    obtain ⟨ej0, hej0⟩ := exists_getElem?_of_lt t.entries j hjlen
    have h0 := ho.1 j ej0 hej0 hjp
    constructor
    · refine fill_eq_of_flags u j ej _ hj ?_
      rw [hf, (fields_of_getElem? t j ej0 hej0).1, h0.1]
    · refine trace_eq_of_traces u j ej _ hj ?_
      rw [htr, (fields_of_getElem? t j ej0 hej0).2.1, h0.2]
  · intro ej hj
    have hjlen : p < t.entries.length := by
      have := lt_length_of_getElem? _ _ _ hj
      omega
    obtain ⟨ej0, hej0⟩ := exists_getElem?_of_lt t.entries p hjlen
    have h0 := ho.2 ej0 hej0
    constructor
    · refine fill_eq_of_flags u p ej _ hj ?_
      rw [hf, (fields_of_getElem? t p ej0 hej0).1, h0.1]
    · refine trace_eq_of_traces u p ej _ hj ?_
      rw [htr, (fields_of_getElem? t p ej0 hej0).2.1, h0.2]

lemma nofill_transport (t u : State) (hf : flags u = flags t)
    (htr : traces u = traces t) (hnf : NoFill t) : NoFill u := by
  have hlen := length_eq_of_flags t u hf
  intro x hx
  rcases getElem?_of_mem _ _ hx with ⟨j, hj⟩
  have hjlen : j < t.entries.length := by
    have := lt_length_of_getElem? _ _ _ hj
    omega
  obtain ⟨ej0, hej0⟩ := exists_getElem?_of_lt t.entries j hjlen
  have h0 := hnf ej0 (mem_of_getElem? _ _ _ hej0)
  constructor
  · refine fill_eq_of_flags u j x _ hj ?_
    rw [hf, (fields_of_getElem? t j ej0 hej0).1, h0.1]
  · refine trace_eq_of_traces u j x _ hj ?_
    rw [htr, (fields_of_getElem? t j ej0 hej0).2.1, h0.2]

lemma stableAt_transport (p : ℕ) (t u : State) (hml : mls u = mls t)
    (hcap : u.container_vol = t.container_vol) (hst : StableAt p t) :
    StableAt p u := by
  intro ej hj
  have hlen : u.entries.length = t.entries.length := by
    have h1 := length_mls u
    have h2 := length_mls t
    rw [hml] at h1
    omega
  have hjlen : p < t.entries.length := by
    have := lt_length_of_getElem? _ _ _ hj
    omega
  obtain ⟨ep, hep⟩ := exists_getElem?_of_lt t.entries p hjlen
  have hmlej : ej.ml = ep.ml := by
    refine ml_eq_of_mls u p ej _ hj ?_
    rw [hml, (fields_of_getElem? t p ep hep).2.2]
  have hsum : mlSum u.entries = mlSum t.entries := by
    rw [mlSum_eq_sum_mls, mlSum_eq_sum_mls, hml]
  rw [hmlej, hsum, hcap]
  exact hst ep hep

lemma toggleLoop_phase_only (p : ℕ) :
    ∀ (fuel k : ℕ) (s : State), p < k → OnlyAt p s → StableAt p s →
      p < s.entries.length →
      OnlyAt p (toggleLoop p s k fuel) ∧
        StableAt p (toggleLoop p s k fuel) ∧
        mls (toggleLoop p s k fuel) = mls s := by
  intro fuel
  induction fuel with
  | zero => intro k s _ ho hst _; exact ⟨ho, hst, rfl⟩
  | succ fuel ih =>
    intro k s hpk ho hst hplen
    rw [toggleLoop]
    cases hk : s.entries[k]? with
    | none => exact ⟨ho, hst, rfl⟩
    | some e =>
      simp only []
      rw [if_neg (by omega : ¬ k = p)]
      obtain ⟨ho', hst', hm'⟩ :=
        unset_fill_other k p s (by omega) ho hst hplen
      obtain ⟨ho2, hst2, hm2⟩ := ih (k + 1) (unset_fill k s) (by omega)
        ho' hst' (by rw [length_unset_fill]; exact hplen)
      exact ⟨ho2, hst2, hm2.trans hm'⟩

lemma toggleLoop_phase_nofill (p : ℕ) :
    ∀ (fuel k : ℕ) (s : State), p < k → NoFill s →
      NoFill (toggleLoop p s k fuel) ∧
        mls (toggleLoop p s k fuel) = mls s := by
  intro fuel
  induction fuel with
  | zero => intro k s _ hnf; exact ⟨hnf, rfl⟩
  | succ fuel ih =>
    intro k s hpk hnf
    rw [toggleLoop]
    cases hk : s.entries[k]? with
    | none => exact ⟨hnf, rfl⟩
    | some e =>
      simp only []
      rw [if_neg (by omega : ¬ k = p)]
      obtain ⟨hnf', hm'⟩ := unset_fill_nofill k s hnf
      obtain ⟨hnf2, hm2⟩ := ih (k + 1) (unset_fill k s) (by omega) hnf'
      exact ⟨hnf2, hm2.trans hm'⟩

end Fludo

namespace Fludo

lemma toggleLoop_set (p : ℕ) :
    ∀ (fuel k : ℕ) (s : State) (q : ℚ), k ≤ p → NoFill s →
      (mls s)[p]? = some q → s.entries.length ≤ k + fuel →
      OnlyAt p (toggleLoop p s k fuel) ∧
        StableAt p (toggleLoop p s k fuel) ∧
        mls (toggleLoop p s k fuel) = (mls s).set p
          (trunc1 (s.container_vol - (mlSum s.entries - q))) := by
  intro fuel
  induction fuel with
  | zero =>
    intro k s q hkp hnf hq hfuel
    have hplen : p < s.entries.length := by
      have h1 := lt_length_of_getElem? _ _ _ hq
      rw [length_mls] at h1
      exact h1
    omega
  | succ fuel ih =>
    intro k s q hkp hnf hq hfuel
    have hplen : p < s.entries.length := by
      have h1 := lt_length_of_getElem? _ _ _ hq
      rw [length_mls] at h1
      exact h1
    rw [toggleLoop]
    obtain ⟨ek, hek⟩ := exists_getElem?_of_lt s.entries k (by omega)
    rw [hek]
    simp only []
    by_cases hkp2 : k = p
    · subst hkp2
      rw [if_pos rfl]
      have hekf : ek.fill_set = false :=
        (hnf ek (mem_of_getElem? _ _ _ hek)).1
      rw [if_neg (by rw [hekf]; simp : ¬ ek.fill_set = true)]
      have hqek : ek.ml = q := ml_eq_of_mls s k ek q hek hq
      obtain ⟨ho2, hst2, hm2⟩ := set_fill_from_nofill k s ek hnf hek
      obtain ⟨ho3, hst3, hm3⟩ := toggleLoop_phase_only k fuel (k + 1)
        { set_fill k s with fill_set := true } (by omega) ho2 hst2
        (by rw [show ({ set_fill k s with fill_set := true } :
            State).entries = (set_fill k s).entries from rfl,
          length_set_fill]; exact hplen)
      refine ⟨ho3, hst3, ?_⟩
      rw [hm3]
      rw [show mls ({ set_fill k s with fill_set := true } : State) =
        mls (set_fill k s) from rfl]
      rw [hm2, hqek]
    · rw [if_neg hkp2]
      obtain ⟨hnf', hm'⟩ := unset_fill_nofill k s hnf
      have hq' : (mls (unset_fill k s))[p]? = some q := by
        rw [hm']
        exact hq
      obtain ⟨ho2, hst2, hm2⟩ := ih (k + 1) (unset_fill k s) q (by omega)
        hnf' hq' (by rw [length_unset_fill]; omega)
      refine ⟨ho2, hst2, ?_⟩
      rw [hm2, hm', container_unset_fill,
        show mlSum (unset_fill k s).entries = mlSum s.entries from by
          rw [mlSum_eq_sum_mls, hm', ← mlSum_eq_sum_mls]]

lemma toggleLoop_unset (p : ℕ) :
    ∀ (fuel k : ℕ) (s : State), k ≤ p → OnlyAt p s → StableAt p s →
      p < s.entries.length → s.entries.length ≤ k + fuel →
      NoFill (toggleLoop p s k fuel) ∧
        mls (toggleLoop p s k fuel) = mls s := by
  intro fuel
  induction fuel with
  | zero => intro k s hkp _ _ hplen hfuel; omega
  | succ fuel ih =>
    intro k s hkp ho hst hplen hfuel
    rw [toggleLoop]
    obtain ⟨ek, hek⟩ := exists_getElem?_of_lt s.entries k (by omega)
    rw [hek]
    simp only []
    by_cases hkp2 : k = p
    · subst hkp2
      rw [if_pos rfl]
      have hekf : ek.fill_set = true := (ho.2 ek hek).1
      rw [if_pos hekf]
      obtain ⟨hnf2, hm2⟩ := unset_fill_self k s ho hplen
      obtain ⟨hnf3, hm3⟩ := toggleLoop_phase_nofill k fuel (k + 1)
        { unset_fill k s with fill_set := false } (by omega) hnf2
      refine ⟨hnf3, ?_⟩
      rw [hm3]
      rw [show mls ({ unset_fill k s with fill_set := false } : State) =
        mls (unset_fill k s) from rfl]
      exact hm2
    · rw [if_neg hkp2]
      obtain ⟨ho', hst', hm'⟩ :=
        unset_fill_other k p s hkp2 ho hst hplen
      obtain ⟨hnf2, hm2⟩ := ih (k + 1) (unset_fill k s) (by omega) ho' hst'
        (by rw [length_unset_fill]; exact hplen)
        (by rw [length_unset_fill]; omega)
      exact ⟨hnf2, hm2.trans hm'⟩

lemma toggle_fill_set_state (p : ℕ) (s : State) (q : ℚ) (hnf : NoFill s)
    (hq : (mls s)[p]? = some q) :
    OnlyAt p (toggle_fill p s) ∧ StableAt p (toggle_fill p s) ∧
      mls (toggle_fill p s) = (mls s).set p
        (trunc1 (s.container_vol - (mlSum s.entries - q))) := by
  have hplen : p < s.entries.length := by
    have h1 := lt_length_of_getElem? _ _ _ hq
    rw [length_mls] at h1
    exact h1
  obtain ⟨hoL, hstL, hmL⟩ := toggleLoop_set p s.entries.length 0 s q
    (by omega) hnf hq (by omega)
  unfold toggle_fill
  have hplenL : p < (toggleLoop p s 0 s.entries.length).entries.length := by
    rw [length_toggleLoop]
    exact hplen
  obtain ⟨e2, he2⟩ := exists_getElem?_of_lt _ p hplenL
  have hup := mls_update_single (some p) (toggleLoop p s 0 s.entries.length)
    p e2 he2 (hoL.2 e2 he2).2
    (fun j ej hj hjp => (hoL.1 j ej hj hjp).2)
  rw [← hstL e2 he2,
    set_getElem?_self _ p e2.ml (fields_of_getElem? _ p e2 he2).2.2] at hup
  refine ⟨onlyAt_transport p _ _ (flags_update _ _) (traces_update _ _) hoL,
    stableAt_transport p _ _ hup (container_update _ _) hstL,
    hup.trans hmL⟩

lemma toggle_fill_unset_state (p : ℕ) (s : State) (ho : OnlyAt p s)
    (hst : StableAt p s) (hplen : p < s.entries.length) :
    NoFill (toggle_fill p s) ∧ mls (toggle_fill p s) = mls s := by
  obtain ⟨hnfL, hmL⟩ := toggleLoop_unset p s.entries.length 0 s (by omega)
    ho hst hplen (by omega)
  unfold toggle_fill
  refine ⟨nofill_update _ _ hnfL, ?_⟩
  rw [mls_update_untraced _ _ (untraced_of_nofill _ hnfL)]
  exact hmL

/-- C5 (amended): starting from a state with no filler (and no fill trace
installed), toggling the same row twice leaves every OTHER row's volume
exactly as before, while the toggled row itself ends at the derived volume
`int((container - sum(others)) * 10) / 10` — its pre-toggle volume is
restored only if it already equalled that derived value. -/
theorem c5_double_toggle (s : State) (p : ℕ) (q : ℚ)
    (hnf : ∀ x ∈ s.entries, x.fill_set = false ∧ x.traceOn = false)
    (hq : (s.entries.map Entry.ml)[p]? = some q) :
    (toggle_fill p (toggle_fill p s)).entries.map Entry.ml =
      (s.entries.map Entry.ml).set p
        (trunc1 (s.container_vol - (mlSum s.entries - q))) ∧
    ∀ k : ℕ, k ≠ p →
      ((toggle_fill p (toggle_fill p s)).entries.map Entry.ml)[k]? =
        (s.entries.map Entry.ml)[k]? := by
  obtain ⟨ho1, hst1, hm1⟩ := toggle_fill_set_state p s q hnf hq
  have hplen1 : p < (toggle_fill p s).entries.length := by
    rw [length_toggle_fill]
    have h1 := lt_length_of_getElem? _ _ _ hq
    rw [List.length_map] at h1
    exact h1
  obtain ⟨hnf2, hm2⟩ := toggle_fill_unset_state p (toggle_fill p s) ho1 hst1
    hplen1
  have hfin : mls (toggle_fill p (toggle_fill p s)) =
      (mls s).set p (trunc1 (s.container_vol - (mlSum s.entries - q))) :=
    hm2.trans hm1
  constructor
  · exact hfin
  · intro k hk
    show (mls (toggle_fill p (toggle_fill p s)))[k]? = (mls s)[k]?
    rw [hfin]
    exact List.getElem?_set_ne (fun hc => hk hc.symm)

/-- Witness for the amended C5 on volumes [30, 20] in the 100 ml container:
toggling row 0 twice yields volumes [80, 20] — row 1 restored exactly, row 0
left at the derived 80. -/
theorem c5_double_toggle_witness :
    ((toggle_fill 0 (toggle_fill 0 volAB)).entries.map Entry.ml =
        (volAB.entries.map Entry.ml).set 0
          (trunc1 (volAB.container_vol - (mlSum volAB.entries - 30))) ∧
      ∀ k : ℕ, k ≠ 0 →
        ((toggle_fill 0 (toggle_fill 0 volAB)).entries.map Entry.ml)[k]? =
          (volAB.entries.map Entry.ml)[k]?) ∧
    (toggle_fill 0 (toggle_fill 0 volAB)).entries.map Entry.ml = [80, 20] :=
  ⟨c5_double_toggle volAB 0 30 (by with_unfolding_all decide)
      (by with_unfolding_all decide),
    by with_unfolding_all decide⟩

end Fludo
